import Mathlib

/-!
Annotation resolution of the management ingress controller.

A shallow embedding of `pkg/ingress/annotations/parser/main.go` together with the
two `strconv` routines it calls, followed by the properties of the typed annotation
getters.

Conventions of the embedding:

* a Go `string` is a Lean `String`; bytes at or above `0x80` (the encodings of non-ASCII
  characters) are neither signs nor digits nor boolean literals, so a character is
  rejected exactly where Go rejects its first byte, and `len` is the UTF-8 byte size;
* a Go `map[string]string` is an association list read with the first binding of a key
  (`ingAnnotations.get`), the nil map and the empty map both being `[]`;
* a Go result `(T, error)` is a pair `T × Option error`, `none` standing for `nil`;
* a `*extensions.Ingress` is an `Option Ingress`, `none` standing for the nil pointer.
-/

/-! ## The error values of `pkg/ingress/errors` -/

namespace errors

/-- Modelled from the spec: the package `pkg/ingress/errors` is not part of the sources at
hand. The specification lists three kinds of error and no others: `MissingAnnotations`,
`InvalidAnnotationName`, and `InvalidAnnotationContent(key, rawValue)` which carries the
offending key and raw value. -/
inductive AnnotationError where
  | ErrMissingAnnotations : AnnotationError
  | ErrInvalidAnnotationName : AnnotationError
  | InvalidAnnotationContent (name : String) (val : String) : AnnotationError
  deriving DecidableEq, Repr

/-- The constructor `errors.NewInvalidAnnotationContent(name, val)`. -/
def NewInvalidAnnotationContent (name val : String) : AnnotationError :=
  AnnotationError.InvalidAnnotationContent name val

end errors

/-! ## The routines of Go's `strconv` used by the getters -/

namespace strconv

/-- The two sentinel errors a `strconv.NumError` wraps. -/
inductive ErrKind where
  | ErrSyntax : ErrKind
  | ErrRange : ErrKind
  deriving DecidableEq, Repr

/-- The record `strconv.NumError`: failing function, input text, and reason. -/
structure NumError where
  Func : String
  Num : String
  Err : ErrKind
  deriving DecidableEq, Repr

/-- The helper `syntaxError(fn, str)`. -/
def syntaxError (fn str : String) : NumError := ⟨fn, str, ErrKind.ErrSyntax⟩

/-- The helper `rangeError(fn, str)`. -/
def rangeError (fn str : String) : NumError := ⟨fn, str, ErrKind.ErrRange⟩

/-- The function `strconv.ParseBool`: a `switch` over twelve literal spellings. -/
def ParseBool (str : String) : Bool × Option NumError :=
  if str = "1" ∨ str = "t" ∨ str = "T" ∨ str = "true" ∨ str = "TRUE" ∨ str = "True" then
    (true, none)
  else if str = "0" ∨ str = "f" ∨ str = "F" ∨ str = "false" ∨ str = "FALSE"
      ∨ str = "False" then
    (false, none)
  else
    (false, some (syntaxError "ParseBool" str))

/-- The constant `strconv.IntSize` of a 64-bit platform. -/
def intSize : Nat := 64

/-- The constant `maxUint64`. -/
def maxUint64 : Nat := 18446744073709551615

/-- Reduction of a natural number to the range of `uint64`. -/
def wrapUint64 (n : Nat) : Nat := n % 18446744073709551616

/-- Reduction of an integer to the range of `int64` (two's complement). -/
def wrapInt64 (z : Int) : Int :=
  (z + 9223372036854775808) % 18446744073709551616 - 9223372036854775808

/-- The body of the digit loop of `ParseUint` for base 10 and bit size 64, on the
remaining characters `cs` with accumulator `n`; `s0` is the text reported in errors.
An underscore is only skipped in base 0, so here it falls to the `default` case. -/
def parseUintLoop (s0 : String) : List Char → Nat → Nat × Option NumError
  | [], n => (n, none)
  | c :: cs, n =>
    if 48 ≤ c.toNat ∧ c.toNat ≤ 57 then
      let d := c.toNat - 48
      -- cutoff = maxUint64/10 + 1
      if n ≥ maxUint64 / 10 + 1 then
        (maxUint64, some (rangeError "ParseUint" s0))
      else
        let n10 := wrapUint64 (n * 10)
        let n1 := wrapUint64 (n10 + d)
        if n1 < n10 ∨ n1 > maxUint64 then
          (maxUint64, some (rangeError "ParseUint" s0))
        else
          parseUintLoop s0 cs n1
    else
      -- a letter is a digit of value at least 10 (rejected by `d >= byte(base)`),
      -- anything else is rejected by the `default` case
      (0, some (syntaxError "ParseUint" s0))

/-- The function `strconv.ParseUint(s, 10, 0)`. -/
def ParseUint (s : String) : Nat × Option NumError :=
  if s = "" then (0, some (syntaxError "ParseUint" s))
  else parseUintLoop s s.data 0

/-- The function `strconv.ParseInt(s, 10, 0)`. -/
def ParseInt (s : String) : Int × Option NumError :=
  if s = "" then (0, some (syntaxError "ParseInt" s))
  else
    let s0 := s
    let neg := s.data.head? = some '-'
    let rest : String :=
      if s.data.head? = some '+' ∨ s.data.head? = some '-' then ⟨s.data.tail⟩ else s
    match ParseUint rest with
    | (_, some ⟨_, _, ErrKind.ErrSyntax⟩) => (0, some ⟨"ParseInt", s0, ErrKind.ErrSyntax⟩)
    | (un, _) =>
      -- cutoff = 1 << (bitSize - 1)
      if ¬ neg ∧ un ≥ 9223372036854775808 then
        (9223372036854775807, some (rangeError "ParseInt" s0))
      else if neg ∧ un > 9223372036854775808 then
        (-9223372036854775808, some (rangeError "ParseInt" s0))
      else
        let n := wrapInt64 un
        (if neg then wrapInt64 (-n) else n, none)

/-- The digit loop of the fast path of `Atoi`: `none` is the syntax error taken at a
byte outside `'0'..'9'`. At most eighteen digits are read, so `n` stays below `10^18`
and the `int` arithmetic does not overflow. -/
def atoiFastLoop : List Char → Int → Option Int
  | [], n => some n
  | c :: cs, n =>
    if 48 ≤ c.toNat ∧ c.toNat ≤ 57 then
      atoiFastLoop cs (wrapInt64 (n * 10 + ((c.toNat - 48 : Nat) : Int)))
    else none

/-- The function `strconv.Atoi`; with `intSize = 64` the fast path is taken by texts of
one to eighteen bytes. -/
def Atoi (s : String) : Int × Option NumError :=
  let sLen := s.utf8ByteSize
  if intSize = 32 ∧ (0 < sLen ∧ sLen < 10) ∨ intSize = 64 ∧ (0 < sLen ∧ sLen < 19) then
    let s0 := s
    let signed := s.data.head? = some '-' ∨ s.data.head? = some '+'
    let rest := if signed then s.data.tail else s.data
    if signed ∧ rest.length < 1 then (0, some (syntaxError "Atoi" s0))
    else
      match atoiFastLoop rest 0 with
      | none => (0, some (syntaxError "Atoi" s0))
      | some n => (if s.data.head? = some '-' then wrapInt64 (-n) else n, none)
  else
    match ParseInt s with
    | (i64, some nerr) => (i64, some ⟨"Atoi", nerr.Num, nerr.Err⟩)
    | (i64, none) => (i64, none)

end strconv

/-! ## The Kubernetes resource -/

/-- The Go type `extensions.IngressBackend`, with the fields the fixtures set. -/
structure IngressBackend where
  ServiceName : String
  ServicePort : Int
  deriving DecidableEq, Repr

/-- The Go type `extensions.IngressRule`, flattened to a host and its paths. -/
structure IngressRule where
  Host : String
  Paths : List (String × IngressBackend)
  deriving DecidableEq, Repr

/-- The Go type `extensions.IngressSpec`. -/
structure IngressSpec where
  Backend : Option IngressBackend
  Rules : List IngressRule
  deriving DecidableEq, Repr

/-- The Go type `ingAnnotations`, a `map[string]string`. -/
abbrev ingAnnotations := List (String × String)

/-- The Go type `extensions.Ingress`: object metadata (name, namespace, annotations)
and a specification. -/
structure Ingress where
  Name : String
  Namespace : String
  Annotations : ingAnnotations
  Spec : IngressSpec
  deriving DecidableEq, Repr

/-- The accessor `ing.GetAnnotations()`. -/
def Ingress.GetAnnotations (ing : Ingress) : ingAnnotations := ing.Annotations

/-- The map read `val, ok := a[name]`: `some val` when `ok`, otherwise `none`. -/
def ingAnnotations.get : ingAnnotations → String → Option String
  | [], _ => none
  | (k, v) :: rest, name => if k = name then some v else ingAnnotations.get rest name

/-- The map write `a[name] = val`. -/
def ingAnnotations.set (a : ingAnnotations) (name val : String) : ingAnnotations :=
  (name, val) :: a.filter (fun kv => kv.1 ≠ name)

/-- The map removal `delete(a, name)`. -/
def ingAnnotations.delete (a : ingAnnotations) (name : String) : ingAnnotations :=
  a.filter (fun kv => kv.1 ≠ name)

/-- The deprecated key of a map overridden: bound to `w` for `some w`, removed for `none`. -/
def ingAnnotations.overrideKey (a : ingAnnotations) (k : String) (d : Option String) : ingAnnotations :=
  match d with
  | some w => a.set k w
  | none => a.delete k

/-- The method `ing.SetAnnotations(data)`. -/
def Ingress.SetAnnotations (ing : Ingress) (data : ingAnnotations) : Ingress :=
  { ing with Annotations := data }

/-! ## The package `parser` -/

namespace parser

open errors

/-- The package variable `AnnotationsPrefix`; nothing in the package assigns to it. -/
def AnnotationsPrefix : String := "ingress.open-cluster-management.io"

/-- The function `GetAnnotationWithPrefix`: `fmt.Sprintf("%v/%v", AnnotationsPrefix, suffix)`. -/
def GetAnnotationWithPrefix (suffix : String) : String :=
  AnnotationsPrefix ++ "/" ++ suffix

/-- The function `GetAnnotationWithDeprecatedPrefix`:
`fmt.Sprintf("%v/%v", "icp.management.ibm.com", suffix)`. -/
def GetAnnotationWithDeprecatedPrefix (suffix : String) : String :=
  "icp.management.ibm.com" ++ "/" ++ suffix

/-- The method `ingAnnotations.parseBool`. -/
def parseBool (a : ingAnnotations) (name : String) : Bool × Option AnnotationError :=
  match a.get name with
  | some val =>
    match strconv.ParseBool val with
    | (_, some _) => (false, some (NewInvalidAnnotationContent name val))
    | (b, none) => (b, none)
  | none => (false, some AnnotationError.ErrMissingAnnotations)

/-- The method `ingAnnotations.parseString`. -/
def parseString (a : ingAnnotations) (name : String) : String × Option AnnotationError :=
  match a.get name with
  | some val => (val, none)
  | none => ("", some AnnotationError.ErrMissingAnnotations)

/-- The method `ingAnnotations.parseInt`. -/
def parseInt (a : ingAnnotations) (name : String) : Int × Option AnnotationError :=
  match a.get name with
  | some val =>
    match strconv.Atoi val with
    | (_, some _) => (0, some (NewInvalidAnnotationContent name val))
    | (i, none) => (i, none)
  | none => (0, some AnnotationError.ErrMissingAnnotations)

/-- The function `checkAnnotation`; `none` is the nil error. -/
def checkAnnotation (name : String) (ing : Option Ingress) : Option AnnotationError :=
  match ing with
  | none => some AnnotationError.ErrMissingAnnotations
  | some i =>
    if i.GetAnnotations.length = 0 then some AnnotationError.ErrMissingAnnotations
    else if name = "" then some AnnotationError.ErrInvalidAnnotationName
    else none

/-- The annotations read after a successful `checkAnnotation`, where `ing` is not nil. -/
def annotationsOf (ing : Option Ingress) : ingAnnotations :=
  match ing with
  | none => []
  | some i => i.GetAnnotations

/-- The function `GetBoolAnnotation`. -/
def GetBoolAnnotation (name : String) (ing : Option Ingress) : Bool × Option AnnotationError :=
  let v := GetAnnotationWithPrefix name
  match checkAnnotation v ing with
  | some err => (false, some err)
  | none =>
    match parseBool (annotationsOf ing) v with
    | (_, some _) =>
      let v := GetAnnotationWithDeprecatedPrefix name
      match checkAnnotation v ing with
      | some err => (false, some err)
      | none => parseBool (annotationsOf ing) v
    | (b, none) => (b, none)

/-- The function `GetStringAnnotation`. -/
def GetStringAnnotation (name : String) (ing : Option Ingress) :
    String × Option AnnotationError :=
  let v := GetAnnotationWithPrefix name
  match checkAnnotation v ing with
  | some err => ("", some err)
  | none =>
    match parseString (annotationsOf ing) v with
    | (_, some _) =>
      let v := GetAnnotationWithDeprecatedPrefix name
      match checkAnnotation v ing with
      | some err => ("", some err)
      | none => parseString (annotationsOf ing) v
    | (val, none) => (val, none)

/-- The function `GetIntAnnotation`. -/
def GetIntAnnotation (name : String) (ing : Option Ingress) : Int × Option AnnotationError :=
  let v := GetAnnotationWithPrefix name
  match checkAnnotation v ing with
  | some err => (0, some err)
  | none =>
    match parseInt (annotationsOf ing) v with
    | (_, some _) =>
      let v := GetAnnotationWithDeprecatedPrefix name
      match checkAnnotation v ing with
      | some err => (0, some err)
      | none => parseInt (annotationsOf ing) v
    | (idx, none) => (idx, none)

/-- The fixture `buildIngress` of the secure-upstream tests. -/
def buildIngress : Ingress :=
  { Name := "foo"
    Namespace := "default"
    Annotations := []
    Spec :=
      { Backend := some ⟨"default-backend", 80⟩
        Rules := [⟨"foo.bar.com", [("/foo", ⟨"default-backend", 80⟩)]⟩] } }

end parser

/-! ## The grammars named by the specification -/

namespace spec

/-- The lower-case form of a text, letter by letter (`A`..`Z` to `a`..`z`). -/
def lowerCase (v : String) : String := ⟨v.data.map Char.toLower⟩

/-- The boolean grammar in the specification's words: `v` equals, ignoring letter case,
one of `true`, `false`, `1`, `0`, `t`, `f`. -/
def isBoolWordIgnoringCase (v : String) : Bool :=
  decide (lowerCase v ∈ ["true", "false", "1", "0", "t", "f"])

/-- The boolean denoted by a word of the specification's grammar: true for
`true`/`1`/`t`. -/
def boolWordValue (v : String) : Bool :=
  decide (lowerCase v ∈ ["true", "1", "t"])

/-- A decimal digit, `'0'` to `'9'`. -/
def isDecimalDigit (c : Char) : Bool := decide (48 ≤ c.toNat ∧ c.toNat ≤ 57)

/-- The characters of a text after an optional leading `'+'` or `'-'`. -/
def unsignedPart (v : String) : List Char :=
  if v.data.head? = some '+' ∨ v.data.head? = some '-' then v.data.tail else v.data

/-- The integer grammar in the specification's words: an optional `'+'` or `'-'`
followed by one or more decimal digits. -/
def isDecimalLiteral (v : String) : Bool :=
  decide (unsignedPart v ≠ []) && (unsignedPart v).all isDecimalDigit

/-- The natural number a run of decimal digits denotes, continuing from `n`. -/
def digitsValueFrom (n : Nat) (cs : List Char) : Nat :=
  cs.foldl (fun acc c => acc * 10 + (c.toNat - 48)) n

/-- The integer a decimal literal denotes: the value of its digits, negated after a
leading `'-'`. -/
def literalValue (v : String) : Int :=
  if v.data.head? = some '-' then - (digitsValueFrom 0 (unsignedPart v) : Int)
  else (digitsValueFrom 0 (unsignedPart v) : Int)

/-- The range of the platform `int` (64-bit two's complement). -/
def inIntRange (z : Int) : Bool :=
  decide (-9223372036854775808 ≤ z ∧ z ≤ 9223372036854775807)

/-- The decimal digits of `u`, most significant first and without leading zeros; the
recursion is on `fuel`, and `fuel = u` is always enough. -/
def renderDigits : Nat → Nat → List Char
  | 0, u => [Nat.digitChar u]
  | fuel + 1, u =>
    if u < 10 then [Nat.digitChar u]
    else renderDigits fuel (u / 10) ++ [Nat.digitChar (u % 10)]

/-- The canonical decimal rendering of an integer: its digits, after a `'-'` when it is
negative. -/
def decimalRendering (n : Int) : String :=
  if n < 0 then ⟨'-' :: renderDigits n.natAbs n.natAbs⟩
  else ⟨renderDigits n.natAbs n.natAbs⟩

open errors parser

/-- One attempt of the reference resolver, in the specification's words: validate the
resource and the prefixed key, then look the key up and parse it with `parse`; `zero` is
the value returned beside a validation error. -/
def attempt {T : Type} (parse : ingAnnotations → String → T × Option AnnotationError)
    (zero : T) (key : String) (ing : Option Ingress) : T × Option AnnotationError :=
  match checkAnnotation key ing with
  | some err => (zero, some err)
  | none => parse (annotationsOf ing) key

/-- The reference resolver of the specification, two sequential attempts: the result of
the attempt under the canonical prefix when it succeeds, otherwise exactly the result of
the attempt under the deprecated prefix. -/
def twoAttempts {T : Type} (parse : ingAnnotations → String → T × Option AnnotationError)
    (zero : T) (name : String) (ing : Option Ingress) : T × Option AnnotationError :=
  match attempt parse zero (GetAnnotationWithPrefix name) ing with
  | (x, none) => (x, none)
  | (_, some _) => attempt parse zero (GetAnnotationWithDeprecatedPrefix name) ing

end spec

/-! ## Auxiliary facts about keys and maps -/

namespace parser

open errors

theorem prefix_data (s : String) :
    (GetAnnotationWithPrefix s).data = "ingress.open-cluster-management.io/".data ++ s.data := by
  simp [GetAnnotationWithPrefix, AnnotationsPrefix, String.data_append]

theorem deprecated_data (s : String) :
    (GetAnnotationWithDeprecatedPrefix s).data = "icp.management.ibm.com/".data ++ s.data := by
  simp [GetAnnotationWithDeprecatedPrefix, String.data_append]

theorem prefix_ne_deprecated (s t : String) :
    GetAnnotationWithPrefix s ≠ GetAnnotationWithDeprecatedPrefix t := by
  intro h
  have h2 := congrArg String.data h
  rw [prefix_data, deprecated_data] at h2
  simp at h2

theorem prefix_ne_empty (s : String) : GetAnnotationWithPrefix s ≠ "" := by
  intro h
  have h2 := congrArg String.data h
  rw [prefix_data] at h2
  simp at h2

theorem deprecated_ne_empty (s : String) : GetAnnotationWithDeprecatedPrefix s ≠ "" := by
  intro h
  have h2 := congrArg String.data h
  rw [deprecated_data] at h2
  simp at h2

theorem get_set_self (a : ingAnnotations) (k v : String) : (a.set k v).get k = some v := by
  simp [ingAnnotations.set, ingAnnotations.get]

theorem get_delete_self (a : ingAnnotations) (k : String) : (a.delete k).get k = none := by
  induction a with
  | nil => simp [ingAnnotations.delete, ingAnnotations.get]
  | cons kv rest ih =>
    obtain ⟨k1, v1⟩ := kv
    by_cases hk : k1 = k
    · simpa [ingAnnotations.delete, List.filter_cons, hk] using ih
    · simpa [ingAnnotations.delete, List.filter_cons, hk, ingAnnotations.get] using ih

theorem get_delete_ne (a : ingAnnotations) (k k2 : String) (h : k2 ≠ k) :
    (a.delete k).get k2 = a.get k2 := by
  induction a with
  | nil => simp [ingAnnotations.delete, ingAnnotations.get]
  | cons kv rest ih =>
    obtain ⟨k1, v1⟩ := kv
    simp [ingAnnotations.delete] at ih
    by_cases hk : k1 = k
    · subst hk
      have hk2 : ¬ k1 = k2 := fun e => h e.symm
      simp [ingAnnotations.delete, List.filter_cons, ingAnnotations.get, hk2, ih]
    · by_cases hk2 : k1 = k2
      · subst hk2
        simp [ingAnnotations.delete, List.filter_cons, hk, ingAnnotations.get]
      · simp [ingAnnotations.delete, List.filter_cons, hk, ingAnnotations.get, hk2, ih]

theorem get_set_ne (a : ingAnnotations) (k v k2 : String) (h : k2 ≠ k) :
    (a.set k v).get k2 = a.get k2 := by
  have hd := get_delete_ne a k k2 h
  have hne : ¬ k = k2 := fun e => h e.symm
  simpa [ingAnnotations.set, ingAnnotations.get, hne, ingAnnotations.delete] using hd

theorem get_some_length (a : ingAnnotations) (k v : String) (h : a.get k = some v) :
    a.length ≠ 0 := by
  cases a with
  | nil => simp [ingAnnotations.get] at h
  | cons kv rest => simp

theorem get_overrideKey_ne (a : ingAnnotations) (k k2 : String) (d : Option String)
    (h : k2 ≠ k) : (a.overrideKey k d).get k2 = a.get k2 := by
  cases d with
  | none => exact get_delete_ne a k k2 h
  | some w => exact get_set_ne a k w k2 h

theorem overrideKey_length (a : ingAnnotations) (k k2 v : String) (d : Option String)
    (h : k2 ≠ k) (hg : a.get k2 = some v) : (a.overrideKey k d).length ≠ 0 :=
  get_some_length _ k2 v ((get_overrideKey_ne a k k2 d h).trans hg)

/-! ## The getters on a resource that passes validation -/

theorem checkAnnotation_canonical (name : String) (ing : Ingress)
    (h : ing.Annotations.length ≠ 0) :
    checkAnnotation (GetAnnotationWithPrefix name) (some ing) = none := by
  simp [ checkAnnotation, Ingress.GetAnnotations, h, prefix_ne_empty]

theorem checkAnnotation_deprecated (name : String) (ing : Ingress)
    (h : ing.Annotations.length ≠ 0) :
    checkAnnotation (GetAnnotationWithDeprecatedPrefix name) (some ing) = none := by
  simp [ checkAnnotation, Ingress.GetAnnotations, h, deprecated_ne_empty]

theorem checkAnnotation_empty (k : String) (ing : Ingress) (h : ing.Annotations = []) :
    checkAnnotation k (some ing) = some AnnotationError.ErrMissingAnnotations := by
  simp [ checkAnnotation, Ingress.GetAnnotations, h]

theorem GetBoolAnnotation_some (name : String) (ing : Ingress)
    (h : ing.Annotations.length ≠ 0) :
    GetBoolAnnotation name (some ing) =
      match parseBool ing.Annotations (GetAnnotationWithPrefix name) with
      | (_, some _) => parseBool ing.Annotations (GetAnnotationWithDeprecatedPrefix name)
      | (b, none) => (b, none) := by
  simp only [ GetBoolAnnotation, checkAnnotation_canonical name ing h,
    checkAnnotation_deprecated name ing h, annotationsOf, Ingress.GetAnnotations]

theorem GetStringAnnotation_some (name : String) (ing : Ingress)
    (h : ing.Annotations.length ≠ 0) :
    GetStringAnnotation name (some ing) =
      match parseString ing.Annotations (GetAnnotationWithPrefix name) with
      | (_, some _) => parseString ing.Annotations (GetAnnotationWithDeprecatedPrefix name)
      | (val, none) => (val, none) := by
  simp only [ GetStringAnnotation, checkAnnotation_canonical name ing h,
    checkAnnotation_deprecated name ing h, annotationsOf, Ingress.GetAnnotations]

theorem GetIntAnnotation_some (name : String) (ing : Ingress)
    (h : ing.Annotations.length ≠ 0) :
    GetIntAnnotation name (some ing) =
      match parseInt ing.Annotations (GetAnnotationWithPrefix name) with
      | (_, some _) => parseInt ing.Annotations (GetAnnotationWithDeprecatedPrefix name)
      | (idx, none) => (idx, none) := by
  simp only [ GetIntAnnotation, checkAnnotation_canonical name ing h,
    checkAnnotation_deprecated name ing h, annotationsOf, Ingress.GetAnnotations]

/-! ## The single-key parsers -/

theorem parseBool_absent (a : ingAnnotations) (k : String) (h : a.get k = none) :
    parseBool a k = (false, some AnnotationError.ErrMissingAnnotations) := by
  simp [parseBool, h]

theorem parseBool_ok (a : ingAnnotations) (k v : String) (b : Bool)
    (h : a.get k = some v) (hp : strconv.ParseBool v = (b, none)) :
    parseBool a k = (b, none) := by
  simp [parseBool, h, hp]

theorem parseBool_bad (a : ingAnnotations) (k v : String)
    (h : a.get k = some v) (hp : (strconv.ParseBool v).2 ≠ none) :
    parseBool a k = (false, some (AnnotationError.InvalidAnnotationContent k v)) := by
  rcases hq : strconv.ParseBool v with ⟨b, _ | e⟩
  · rw [hq] at hp; exact absurd rfl hp
  · simp [parseBool, h, hq, NewInvalidAnnotationContent]

theorem parseInt_absent (a : ingAnnotations) (k : String) (h : a.get k = none) :
    parseInt a k = (0, some AnnotationError.ErrMissingAnnotations) := by
  simp [parseInt, h]

theorem parseInt_ok (a : ingAnnotations) (k v : String) (n : Int)
    (h : a.get k = some v) (hp : strconv.Atoi v = (n, none)) :
    parseInt a k = (n, none) := by
  simp [parseInt, h, hp]

theorem parseInt_bad (a : ingAnnotations) (k v : String)
    (h : a.get k = some v) (hp : (strconv.Atoi v).2 ≠ none) :
    parseInt a k = (0, some (AnnotationError.InvalidAnnotationContent k v)) := by
  rcases hq : strconv.Atoi v with ⟨b, _ | e⟩
  · rw [hq] at hp; exact absurd rfl hp
  · simp [parseInt, h, hq, NewInvalidAnnotationContent]

theorem parseString_absent (a : ingAnnotations) (k : String) (h : a.get k = none) :
    parseString a k = ("", some AnnotationError.ErrMissingAnnotations) := by
  simp [parseString, h]

theorem parseString_ok (a : ingAnnotations) (k v : String) (h : a.get k = some v) :
    parseString a k = (v, none) := by
  simp [parseString, h]

theorem parseBool_absent_fails (a : ingAnnotations) (k : String) (h : a.get k = none) :
    (parseBool a k).2 ≠ none := by
  rw [parseBool_absent a k h]; simp

theorem parseBool_bad_fails (a : ingAnnotations) (k v : String)
    (h : a.get k = some v) (hp : (strconv.ParseBool v).2 ≠ none) :
    (parseBool a k).2 ≠ none := by
  rw [parseBool_bad a k v h hp]; simp

theorem parseInt_absent_fails (a : ingAnnotations) (k : String) (h : a.get k = none) :
    (parseInt a k).2 ≠ none := by
  rw [parseInt_absent a k h]; simp

theorem parseInt_bad_fails (a : ingAnnotations) (k v : String)
    (h : a.get k = some v) (hp : (strconv.Atoi v).2 ≠ none) :
    (parseInt a k).2 ≠ none := by
  rw [parseInt_bad a k v h hp]; simp

theorem parseString_absent_fails (a : ingAnnotations) (k : String) (h : a.get k = none) :
    (parseString a k).2 ≠ none := by
  rw [parseString_absent a k h]; simp

/-! ## The two attempts of a getter -/

theorem GetBoolAnnotation_canonical_ok (name : String) (ing : Ingress) (v : String) (b : Bool)
    (h : ing.Annotations.get (GetAnnotationWithPrefix name) = some v)
    (hp : strconv.ParseBool v = (b, none)) :
    GetBoolAnnotation name (some ing) = (b, none) := by
  rw [GetBoolAnnotation_some name ing (get_some_length _ _ _ h),
    parseBool_ok ing.Annotations _ v b h hp]

theorem GetStringAnnotation_canonical_ok (name : String) (ing : Ingress) (v : String)
    (h : ing.Annotations.get (GetAnnotationWithPrefix name) = some v) :
    GetStringAnnotation name (some ing) = (v, none) := by
  rw [GetStringAnnotation_some name ing (get_some_length _ _ _ h),
    parseString_ok ing.Annotations _ v h]

theorem GetIntAnnotation_canonical_ok (name : String) (ing : Ingress) (v : String) (n : Int)
    (h : ing.Annotations.get (GetAnnotationWithPrefix name) = some v)
    (hp : strconv.Atoi v = (n, none)) :
    GetIntAnnotation name (some ing) = (n, none) := by
  rw [GetIntAnnotation_some name ing (get_some_length _ _ _ h),
    parseInt_ok ing.Annotations _ v n h hp]

theorem GetBoolAnnotation_fallback (name : String) (ing : Ingress)
    (hlen : ing.Annotations.length ≠ 0)
    (hfail : (parseBool ing.Annotations (GetAnnotationWithPrefix name)).2 ≠ none) :
    GetBoolAnnotation name (some ing) =
      parseBool ing.Annotations (GetAnnotationWithDeprecatedPrefix name) := by
  rw [GetBoolAnnotation_some name ing hlen]
  rcases hq : parseBool ing.Annotations (GetAnnotationWithPrefix name) with ⟨b, _ | e⟩
  · rw [hq] at hfail; exact absurd rfl hfail
  · rfl

theorem GetStringAnnotation_fallback (name : String) (ing : Ingress)
    (hlen : ing.Annotations.length ≠ 0)
    (hfail : (parseString ing.Annotations (GetAnnotationWithPrefix name)).2 ≠ none) :
    GetStringAnnotation name (some ing) =
      parseString ing.Annotations (GetAnnotationWithDeprecatedPrefix name) := by
  rw [GetStringAnnotation_some name ing hlen]
  rcases hq : parseString ing.Annotations (GetAnnotationWithPrefix name) with ⟨b, _ | e⟩
  · rw [hq] at hfail; exact absurd rfl hfail
  · rfl

theorem GetIntAnnotation_fallback (name : String) (ing : Ingress)
    (hlen : ing.Annotations.length ≠ 0)
    (hfail : (parseInt ing.Annotations (GetAnnotationWithPrefix name)).2 ≠ none) :
    GetIntAnnotation name (some ing) =
      parseInt ing.Annotations (GetAnnotationWithDeprecatedPrefix name) := by
  rw [GetIntAnnotation_some name ing hlen]
  rcases hq : parseInt ing.Annotations (GetAnnotationWithPrefix name) with ⟨b, _ | e⟩
  · rw [hq] at hfail; exact absurd rfl hfail
  · rfl

/-! ## The outcomes of a parser and of a getter -/

/-- The three outcomes of `parseBool`. -/
theorem parseBool_cases (a : ingAnnotations) (k : String) :
    (a.get k = none ∧ parseBool a k = (false, some AnnotationError.ErrMissingAnnotations)) ∨
    (∃ v, a.get k = some v ∧ (strconv.ParseBool v).2 ≠ none ∧
      parseBool a k = (false, some (AnnotationError.InvalidAnnotationContent k v))) ∨
    (∃ v b, a.get k = some v ∧ strconv.ParseBool v = (b, none) ∧
      parseBool a k = (b, none)) := by
  rcases hg : a.get k with _ | v
  · exact Or.inl ⟨rfl, parseBool_absent a k hg⟩
  · rcases hp : strconv.ParseBool v with ⟨b, _ | e⟩
    · exact Or.inr (Or.inr ⟨v, b, rfl, hp, parseBool_ok a k v b hg hp⟩)
    · have hbad : (strconv.ParseBool v).2 ≠ none := by rw [hp]; simp
      exact Or.inr (Or.inl ⟨v, rfl, hbad, parseBool_bad a k v hg hbad⟩)

/-- The three outcomes of `parseInt`. -/
theorem parseInt_cases (a : ingAnnotations) (k : String) :
    (a.get k = none ∧ parseInt a k = (0, some AnnotationError.ErrMissingAnnotations)) ∨
    (∃ v, a.get k = some v ∧ (strconv.Atoi v).2 ≠ none ∧
      parseInt a k = (0, some (AnnotationError.InvalidAnnotationContent k v))) ∨
    (∃ v n, a.get k = some v ∧ strconv.Atoi v = (n, none) ∧
      parseInt a k = (n, none)) := by
  rcases hg : a.get k with _ | v
  · exact Or.inl ⟨rfl, parseInt_absent a k hg⟩
  · rcases hp : strconv.Atoi v with ⟨n, _ | e⟩
    · exact Or.inr (Or.inr ⟨v, n, rfl, hp, parseInt_ok a k v n hg hp⟩)
    · have hbad : (strconv.Atoi v).2 ≠ none := by rw [hp]; simp
      exact Or.inr (Or.inl ⟨v, rfl, hbad, parseInt_bad a k v hg hbad⟩)

/-- The two outcomes of `parseString`. -/
theorem parseString_cases (a : ingAnnotations) (k : String) :
    (a.get k = none ∧ parseString a k = ("", some AnnotationError.ErrMissingAnnotations)) ∨
    (∃ v, a.get k = some v ∧ parseString a k = (v, none)) := by
  rcases hg : a.get k with _ | v
  · exact Or.inl ⟨rfl, parseString_absent a k hg⟩
  · exact Or.inr ⟨v, rfl, parseString_ok a k v hg⟩

theorem checkAnnotation_none (k : String) :
    checkAnnotation k none = some AnnotationError.ErrMissingAnnotations := rfl

/-- The outcomes of `GetBoolAnnotation`: the validation error, the canonical value, or
the result of the deprecated attempt. -/
theorem GetBoolAnnotation_cases (name : String) (r : Option Ingress) :
    ((r = none ∨ ∃ ing, r = some ing ∧ ing.Annotations = []) ∧
      GetBoolAnnotation name r = (false, some AnnotationError.ErrMissingAnnotations)) ∨
    (∃ ing, r = some ing ∧ ing.Annotations ≠ [] ∧
      ((∃ b, parseBool ing.Annotations (GetAnnotationWithPrefix name) = (b, none) ∧
          GetBoolAnnotation name r = (b, none)) ∨
        ((parseBool ing.Annotations (GetAnnotationWithPrefix name)).2 ≠ none ∧
          GetBoolAnnotation name r
            = parseBool ing.Annotations (GetAnnotationWithDeprecatedPrefix name)))) := by
  cases r with
  | none =>
    exact Or.inl ⟨Or.inl rfl, by simp [ GetBoolAnnotation, checkAnnotation_none]⟩
  | some ing =>
    by_cases he : ing.Annotations = []
    · exact Or.inl ⟨Or.inr ⟨ing, rfl, he⟩,
        by simp [ GetBoolAnnotation, checkAnnotation_empty _ ing he]⟩
    · have hlen : ing.Annotations.length ≠ 0 := fun e => he (List.length_eq_zero.mp e)
      refine Or.inr ⟨ing, rfl, he, ?_⟩
      rcases hq : parseBool ing.Annotations (GetAnnotationWithPrefix name) with ⟨b, _ | e⟩
      · refine Or.inl ⟨b, rfl, ?_⟩
        rw [GetBoolAnnotation_some name ing hlen, hq]
      · refine Or.inr ⟨by simp, ?_⟩
        exact GetBoolAnnotation_fallback name ing hlen (by rw [hq]; simp)

/-- The outcomes of `GetIntAnnotation`. -/
theorem GetIntAnnotation_cases (name : String) (r : Option Ingress) :
    ((r = none ∨ ∃ ing, r = some ing ∧ ing.Annotations = []) ∧
      GetIntAnnotation name r = (0, some AnnotationError.ErrMissingAnnotations)) ∨
    (∃ ing, r = some ing ∧ ing.Annotations ≠ [] ∧
      ((∃ n, parseInt ing.Annotations (GetAnnotationWithPrefix name) = (n, none) ∧
          GetIntAnnotation name r = (n, none)) ∨
        ((parseInt ing.Annotations (GetAnnotationWithPrefix name)).2 ≠ none ∧
          GetIntAnnotation name r
            = parseInt ing.Annotations (GetAnnotationWithDeprecatedPrefix name)))) := by
  cases r with
  | none =>
    exact Or.inl ⟨Or.inl rfl, by simp [ GetIntAnnotation, checkAnnotation_none]⟩
  | some ing =>
    by_cases he : ing.Annotations = []
    · exact Or.inl ⟨Or.inr ⟨ing, rfl, he⟩,
        by simp [ GetIntAnnotation, checkAnnotation_empty _ ing he]⟩
    · have hlen : ing.Annotations.length ≠ 0 := fun e => he (List.length_eq_zero.mp e)
      refine Or.inr ⟨ing, rfl, he, ?_⟩
      rcases hq : parseInt ing.Annotations (GetAnnotationWithPrefix name) with ⟨b, _ | e⟩
      · refine Or.inl ⟨b, rfl, ?_⟩
        rw [GetIntAnnotation_some name ing hlen, hq]
      · refine Or.inr ⟨by simp, ?_⟩
        exact GetIntAnnotation_fallback name ing hlen (by rw [hq]; simp)

/-- The outcomes of `GetStringAnnotation`. -/
theorem GetStringAnnotation_cases (name : String) (r : Option Ingress) :
    ((r = none ∨ ∃ ing, r = some ing ∧ ing.Annotations = []) ∧
      GetStringAnnotation name r = ("", some AnnotationError.ErrMissingAnnotations)) ∨
    (∃ ing, r = some ing ∧ ing.Annotations ≠ [] ∧
      ((∃ v, parseString ing.Annotations (GetAnnotationWithPrefix name) = (v, none) ∧
          GetStringAnnotation name r = (v, none)) ∨
        ((parseString ing.Annotations (GetAnnotationWithPrefix name)).2 ≠ none ∧
          GetStringAnnotation name r
            = parseString ing.Annotations (GetAnnotationWithDeprecatedPrefix name)))) := by
  cases r with
  | none =>
    exact Or.inl ⟨Or.inl rfl, by simp [ GetStringAnnotation, checkAnnotation_none]⟩
  | some ing =>
    by_cases he : ing.Annotations = []
    · exact Or.inl ⟨Or.inr ⟨ing, rfl, he⟩,
        by simp [ GetStringAnnotation, checkAnnotation_empty _ ing he]⟩
    · have hlen : ing.Annotations.length ≠ 0 := fun e => he (List.length_eq_zero.mp e)
      refine Or.inr ⟨ing, rfl, he, ?_⟩
      rcases hq : parseString ing.Annotations (GetAnnotationWithPrefix name) with ⟨b, _ | e⟩
      · refine Or.inl ⟨b, rfl, ?_⟩
        rw [GetStringAnnotation_some name ing hlen, hq]
      · refine Or.inr ⟨by simp, ?_⟩
        exact GetStringAnnotation_fallback name ing hlen (by rw [hq]; simp)

/-- An `InvalidAnnotationContent` returned by `GetBoolAnnotation` comes from the
deprecated attempt. -/
theorem GetBoolAnnotation_invalid (name : String) (r : Option Ingress) (k v : String)
    (h : ( GetBoolAnnotation name r).2 = some (AnnotationError.InvalidAnnotationContent k v)) :
    ∃ ing, r = some ing ∧ k = GetAnnotationWithDeprecatedPrefix name ∧
      ing.Annotations.get (GetAnnotationWithDeprecatedPrefix name) = some v ∧
      (strconv.ParseBool v).2 ≠ none := by
  rcases GetBoolAnnotation_cases name r with ⟨_, hres⟩ | ⟨ing, hr, _, ⟨b, _, hres⟩ | ⟨_, hres⟩⟩
  · rw [hres] at h; simp at h
  · rw [hres] at h; simp at h
  · rw [hres] at h
    rcases parseBool_cases ing.Annotations (GetAnnotationWithDeprecatedPrefix name) with
      ⟨_, hp⟩ | ⟨w, hg, hbad, hp⟩ | ⟨w, b, _, _, hp⟩
    · rw [hp] at h; simp at h
    · rw [hp] at h
      simp only [Option.some.injEq, AnnotationError.InvalidAnnotationContent.injEq] at h
      obtain ⟨hk, hv⟩ := h
      subst hv
      exact ⟨ing, hr, hk.symm, hg, hbad⟩
    · rw [hp] at h; simp at h

/-- An `InvalidAnnotationContent` returned by `GetIntAnnotation` comes from the deprecated
attempt. -/
theorem GetIntAnnotation_invalid (name : String) (r : Option Ingress) (k v : String)
    (h : ( GetIntAnnotation name r).2 = some (AnnotationError.InvalidAnnotationContent k v)) :
    ∃ ing, r = some ing ∧ k = GetAnnotationWithDeprecatedPrefix name ∧
      ing.Annotations.get (GetAnnotationWithDeprecatedPrefix name) = some v ∧
      (strconv.Atoi v).2 ≠ none := by
  rcases GetIntAnnotation_cases name r with ⟨_, hres⟩ | ⟨ing, hr, _, ⟨b, _, hres⟩ | ⟨_, hres⟩⟩
  · rw [hres] at h; simp at h
  · rw [hres] at h; simp at h
  · rw [hres] at h
    rcases parseInt_cases ing.Annotations (GetAnnotationWithDeprecatedPrefix name) with
      ⟨_, hp⟩ | ⟨w, hg, hbad, hp⟩ | ⟨w, b, _, _, hp⟩
    · rw [hp] at h; simp at h
    · rw [hp] at h
      simp only [Option.some.injEq, AnnotationError.InvalidAnnotationContent.injEq] at h
      obtain ⟨hk, hv⟩ := h
      subst hv
      exact ⟨ing, hr, hk.symm, hg, hbad⟩
    · rw [hp] at h; simp at h

theorem get_ext_nil (a b : ingAnnotations) (h : ∀ k, a.get k = b.get k) (ha : a = []) :
    b = [] := by
  cases b with
  | nil => rfl
  | cons kv rest =>
    have hk := h kv.1
    rw [ha] at hk
    simp [ingAnnotations.get] at hk

theorem parseBool_ext (a b : ingAnnotations) (k : String) (h : a.get k = b.get k) :
    parseBool a k = parseBool b k := by
  simp only [parseBool, h]

theorem parseString_ext (a b : ingAnnotations) (k : String) (h : a.get k = b.get k) :
    parseString a k = parseString b k := by
  simp only [parseString, h]

theorem parseInt_ext (a b : ingAnnotations) (k : String) (h : a.get k = b.get k) :
    parseInt a k = parseInt b k := by
  simp only [parseInt, h]

end parser

/-! ## The integer parser of `strconv` against the decimal grammar -/

namespace strconv

open spec

theorem wrapInt64_of_range (z : Int) (h1 : -9223372036854775808 ≤ z)
    (h2 : z ≤ 9223372036854775807) : wrapInt64 z = z := by
  unfold wrapInt64
  omega

theorem digitsValueFrom_cons (n : Nat) (c : Char) (cs : List Char) :
    digitsValueFrom n (c :: cs) = digitsValueFrom (n * 10 + (c.toNat - 48)) cs := rfl

theorem digitsValueFrom_ge (cs : List Char) : ∀ n, n ≤ digitsValueFrom n cs := by
  induction cs with
  | nil => intro n; exact le_rfl
  | cons c cs ih =>
    intro n
    rw [digitsValueFrom_cons]
    exact le_trans (by omega) (ih _)

theorem all_digits_cons (c : Char) (cs : List Char) :
    (c :: cs).all isDecimalDigit = true ↔
      (48 ≤ c.toNat ∧ c.toNat ≤ 57) ∧ cs.all isDecimalDigit = true := by
  simp [List.all_cons, isDecimalDigit]

theorem digitsValueFrom_lt (cs : List Char) :
    ∀ n, cs.all isDecimalDigit = true →
      digitsValueFrom n cs + 1 ≤ (n + 1) * 10 ^ cs.length := by
  induction cs with
  | nil => intro n _; simp [digitsValueFrom]
  | cons c cs ih =>
    intro n h
    obtain ⟨hc, hcs⟩ := (all_digits_cons c cs).mp h
    rw [digitsValueFrom_cons, List.length_cons, pow_succ]
    have h1 := ih (n * 10 + (c.toNat - 48)) hcs
    have h2 : (n * 10 + (c.toNat - 48) + 1) * 10 ^ cs.length
        ≤ ((n + 1) * 10) * 10 ^ cs.length := Nat.mul_le_mul_right _ (by omega)
    calc digitsValueFrom (n * 10 + (c.toNat - 48)) cs + 1
        ≤ (n * 10 + (c.toNat - 48) + 1) * 10 ^ cs.length := h1
      _ ≤ ((n + 1) * 10) * 10 ^ cs.length := h2
      _ = (n + 1) * (10 ^ cs.length * 10) := by ring

theorem atoiFastLoop_digits (cs : List Char) :
    ∀ n : Nat, (n + 1) * 10 ^ cs.length ≤ 10 ^ 18 → cs.all isDecimalDigit = true →
      atoiFastLoop cs (n : Int) = some (digitsValueFrom n cs : Int) := by
  induction cs with
  | nil => intro n _ _; rfl
  | cons c cs ih =>
    intro n hb h
    obtain ⟨hc, hcs⟩ := (all_digits_cons c cs).mp h
    rw [List.length_cons, pow_succ] at hb
    have hpos : 1 ≤ 10 ^ cs.length := Nat.one_le_pow _ _ (by norm_num)
    have hb2 : (n + 1) * 10 * 1 ≤ (n + 1) * 10 * 10 ^ cs.length :=
      Nat.mul_le_mul_left _ hpos
    have hb3 : (n + 1) * (10 ^ cs.length * 10) = (n + 1) * 10 * 10 ^ cs.length := by ring
    have hsmall : n * 10 + (c.toNat - 48) + 1 ≤ 10 ^ 18 := by omega
    have hnext : (n * 10 + (c.toNat - 48) + 1) * 10 ^ cs.length ≤ 10 ^ 18 :=
      le_trans (Nat.mul_le_mul_right _ (by omega)) (hb3 ▸ hb)
    have hw : wrapInt64 ((n : Int) * 10 + ((c.toNat - 48 : Nat) : Int))
        = ((n * 10 + (c.toNat - 48) : Nat) : Int) := by
      rw [wrapInt64_of_range] <;> push_cast <;> norm_num at hsmall ⊢ <;> omega
    rw [digitsValueFrom_cons, ← ih _ hnext hcs]
    simp only [atoiFastLoop, hc, and_self, if_true, hw]

theorem atoiFastLoop_nondigit (cs : List Char) :
    ∀ z : Int, cs.all isDecimalDigit = false → atoiFastLoop cs z = none := by
  induction cs with
  | nil => intro z h; simp at h
  | cons c cs ih =>
    intro z h
    by_cases hc : 48 ≤ c.toNat ∧ c.toNat ≤ 57
    · have hcs : cs.all isDecimalDigit = false := by
        by_contra hne
        have ht : cs.all isDecimalDigit = true := by simpa using hne
        rw [(all_digits_cons c cs).mpr ⟨hc, ht⟩] at h
        exact Bool.noConfusion h
      simp only [atoiFastLoop, hc, and_self, if_true]
      exact ih _ hcs
    · simp only [atoiFastLoop, hc, if_false]

theorem all_digits_false_cons (c : Char) (cs : List Char)
    (h : cs.all isDecimalDigit = false) :
    (c :: cs).all isDecimalDigit = false := by
  simp only [List.all_cons, h, Bool.and_false]

theorem all_digits_false_head (c : Char) (cs : List Char)
    (hc : ¬ (48 ≤ c.toNat ∧ c.toNat ≤ 57)) :
    (c :: cs).all isDecimalDigit = false := by
  have h0 : isDecimalDigit c = false := by simp [isDecimalDigit, hc]
  simp only [List.all_cons, h0, Bool.false_and]

/-- The three outcomes of the digit loop of `ParseUint`: the value of the digits when it
fits `uint64`; the range error with the saturated value when the text so far overflows;
the syntax error at a character that is not a digit. -/
theorem parseUintLoop_spec (s0 : String) (cs : List Char) :
    ∀ n, n ≤ maxUint64 →
      (cs.all isDecimalDigit = true ∧ digitsValueFrom n cs ≤ maxUint64 ∧
        parseUintLoop s0 cs n = (digitsValueFrom n cs, none)) ∨
      (¬ (cs.all isDecimalDigit = true ∧ digitsValueFrom n cs ≤ maxUint64) ∧
        parseUintLoop s0 cs n = (maxUint64, some (rangeError "ParseUint" s0))) ∨
      (cs.all isDecimalDigit = false ∧
        parseUintLoop s0 cs n = (0, some (syntaxError "ParseUint" s0))) := by
  induction cs with
  | nil =>
    intro n hn
    exact Or.inl ⟨rfl, hn, rfl⟩
  | cons c cs ih =>
    intro n hn
    by_cases hc : 48 ≤ c.toNat ∧ c.toNat ≤ 57
    · by_cases hcut : n ≥ maxUint64 / 10 + 1
      · refine Or.inr (Or.inl ⟨?_, ?_⟩)
        · rintro ⟨_, hv⟩
          have hge := digitsValueFrom_ge cs (n * 10 + (c.toNat - 48))
          rw [digitsValueFrom_cons] at hv
          simp only [maxUint64] at hcut hv
          omega
        · simp only [parseUintLoop, hc, and_self, if_true, hcut]
      · have hn10 : wrapUint64 (n * 10) = n * 10 := by
          simp only [maxUint64] at hcut
          unfold wrapUint64
          omega
        by_cases hov : n * 10 + (c.toNat - 48) ≤ maxUint64
        · have hn1 : wrapUint64 (n * 10 + (c.toNat - 48)) = n * 10 + (c.toNat - 48) := by
            simp only [maxUint64] at hov
            unfold wrapUint64
            omega
          have hstep : parseUintLoop s0 (c :: cs) n
              = parseUintLoop s0 cs (n * 10 + (c.toNat - 48)) := by
            have hno : ¬ (n * 10 + (c.toNat - 48) < n * 10 ∨
                n * 10 + (c.toNat - 48) > maxUint64) := by omega
            simp only [parseUintLoop, hc, and_self, if_true, hcut, if_false, hn10, hn1, hno]
          rw [hstep, digitsValueFrom_cons]
          rcases ih (n * 10 + (c.toNat - 48)) hov with ⟨ha, hv, hr⟩ | ⟨hna, hr⟩ | ⟨hna, hr⟩
          · exact Or.inl ⟨(all_digits_cons c cs).mpr ⟨hc, ha⟩, hv, hr⟩
          · refine Or.inr (Or.inl ⟨?_, hr⟩)
            rintro ⟨ha, hv⟩
            exact hna ⟨((all_digits_cons c cs).mp ha).2, hv⟩
          · exact Or.inr (Or.inr ⟨all_digits_false_cons c cs hna, hr⟩)
        · refine Or.inr (Or.inl ⟨?_, ?_⟩)
          · rintro ⟨_, hv⟩
            have hge := digitsValueFrom_ge cs (n * 10 + (c.toNat - 48))
            rw [digitsValueFrom_cons] at hv
            omega
          · have hyes : wrapUint64 (n * 10 + (c.toNat - 48)) < n * 10 ∨
                wrapUint64 (n * 10 + (c.toNat - 48)) > maxUint64 := by
              left
              simp only [maxUint64] at hov hcut
              unfold wrapUint64
              omega
            simp only [parseUintLoop, hc, and_self, if_true, hcut, if_false, hn10, hyes]
    · refine Or.inr (Or.inr ⟨all_digits_false_head c cs hc, ?_⟩)
      simp only [parseUintLoop, hc, if_false]

theorem data_eq_nil_iff (r : String) : r.data = [] ↔ r = "" :=
  ⟨fun h => String.ext h, fun h => by rw [h]⟩

theorem ParseUint_spec (r : String) :
    (r.data ≠ [] ∧ r.data.all isDecimalDigit = true ∧
        digitsValueFrom 0 r.data ≤ maxUint64 ∧
        ParseUint r = (digitsValueFrom 0 r.data, none)) ∨
    (¬ (r.data.all isDecimalDigit = true ∧ digitsValueFrom 0 r.data ≤ maxUint64) ∧
        ParseUint r = (maxUint64, some (rangeError "ParseUint" r))) ∨
    (¬ (r.data ≠ [] ∧ r.data.all isDecimalDigit = true) ∧
        ParseUint r = (0, some (syntaxError "ParseUint" r))) := by
  by_cases hr : r = ""
  · refine Or.inr (Or.inr ⟨?_, ?_⟩)
    · rintro ⟨hne, _⟩
      exact hne ((data_eq_nil_iff r).mpr hr)
    · simp only [ParseUint, hr, if_true]
  · have hd : r.data ≠ [] := fun e => hr ((data_eq_nil_iff r).mp e)
    have hP : ParseUint r = parseUintLoop r r.data 0 := by
      simp only [ParseUint, hr, if_false]
    rw [hP]
    rcases parseUintLoop_spec r r.data 0 (by simp [maxUint64]) with
      ⟨ha, hv, hres⟩ | ⟨hna, hres⟩ | ⟨hna, hres⟩
    · exact Or.inl ⟨hd, ha, hv, hres⟩
    · exact Or.inr (Or.inl ⟨hna, hres⟩)
    · refine Or.inr (Or.inr ⟨?_, hres⟩)
      rintro ⟨_, ha⟩
      rw [ha] at hna
      exact Bool.noConfusion hna

/-- The text handed to `ParseUint` by `ParseInt`: the input without its sign. -/
theorem unsignedPart_eq_data (s : String) :
    (if s.data.head? = some '+' ∨ s.data.head? = some '-' then (⟨s.data.tail⟩ : String)
      else s).data = unsignedPart s := by
  unfold unsignedPart
  split <;> rfl

theorem isDecimalLiteral_iff (s : String) :
    isDecimalLiteral s = true ↔
      unsignedPart s ≠ [] ∧ (unsignedPart s).all isDecimalDigit = true := by
  simp [isDecimalLiteral]

theorem inIntRange_iff (z : Int) :
    inIntRange z = true ↔ -9223372036854775808 ≤ z ∧ z ≤ 9223372036854775807 := by
  simp [inIntRange]

/-- The function `ParseInt` against the decimal grammar: it returns the value of a literal
that fits `int64`, and an error for every other text. -/
theorem ParseInt_spec (s : String) :
    (isDecimalLiteral s = true ∧ inIntRange (literalValue s) = true ∧
        ParseInt s = (literalValue s, none)) ∨
    (¬ (isDecimalLiteral s = true ∧ inIntRange (literalValue s) = true) ∧
        (ParseInt s).2 ≠ none) := by
  by_cases hs : s = ""
  · refine Or.inr ⟨?_, ?_⟩
    · rintro ⟨hl, _⟩
      rw [hs] at hl
      exact absurd hl (by decide)
    · simp only [ParseInt, hs, if_true]
      simp
  · have hu := unsignedPart_eq_data s
    generalize hrest : (if s.data.head? = some '+' ∨ s.data.head? = some '-'
      then (⟨s.data.tail⟩ : String) else s) = rest at hu
    have hP : ParseInt s =
        match ParseUint rest with
        | (_, some ⟨_, _, ErrKind.ErrSyntax⟩) => (0, some ⟨"ParseInt", s, ErrKind.ErrSyntax⟩)
        | (un, _) =>
          if ¬ (s.data.head? = some '-') ∧ un ≥ 9223372036854775808 then
            (9223372036854775807, some (rangeError "ParseInt" s))
          else if s.data.head? = some '-' ∧ un > 9223372036854775808 then
            (-9223372036854775808, some (rangeError "ParseInt" s))
          else
            (if s.data.head? = some '-' then wrapInt64 (-(wrapInt64 un)) else wrapInt64 un,
              none) := by
      simp only [ParseInt, hs, if_false, hrest]
    rw [hP]
    have hlit := isDecimalLiteral_iff s
    have hval : literalValue s = if s.data.head? = some '-'
        then - (digitsValueFrom 0 (unsignedPart s) : Int)
        else (digitsValueFrom 0 (unsignedPart s) : Int) := rfl
    rcases ParseUint_spec rest with ⟨hne, ha, hv, hres⟩ | ⟨hna, hres⟩ | ⟨hna, hres⟩
    · rw [hres, hu] at *
      simp only [maxUint64] at hv
      by_cases hneg : s.data.head? = some '-'
      · by_cases hbig : digitsValueFrom 0 (unsignedPart s) > 9223372036854775808
        · refine Or.inr ⟨?_, ?_⟩
          · rintro ⟨_, hr⟩
            rw [inIntRange_iff, hval, if_pos hneg] at hr
            omega
          · simp [hneg, hbig]
        · refine Or.inl ⟨hlit.mpr ⟨hne, ha⟩, ?_, ?_⟩
          · rw [inIntRange_iff, hval, if_pos hneg]
            omega
          · simp only [hneg, not_true_eq_false, false_and, if_false, true_and, hbig, if_true,
              hval]
            rw [Prod.mk.injEq]
            refine ⟨?_, rfl⟩
            unfold wrapInt64
            omega
      · by_cases hbig : digitsValueFrom 0 (unsignedPart s) ≥ 9223372036854775808
        · refine Or.inr ⟨?_, ?_⟩
          · rintro ⟨_, hr⟩
            rw [inIntRange_iff, hval, if_neg hneg] at hr
            omega
          · simp [hneg, hbig]
        · refine Or.inl ⟨hlit.mpr ⟨hne, ha⟩, ?_, ?_⟩
          · rw [inIntRange_iff, hval, if_neg hneg]
            omega
          · simp only [hneg, not_false_eq_true, true_and, hbig, if_false, false_and, hval]
            rw [Prod.mk.injEq]
            refine ⟨?_, rfl⟩
            unfold wrapInt64
            omega
    · rw [hres, hu] at *
      refine Or.inr ⟨?_, ?_⟩
      · rintro ⟨hl, hr⟩
        have ha := (hlit.mp hl).2
        have hv : ¬ digitsValueFrom 0 (unsignedPart s) ≤ maxUint64 := fun h => hna ⟨ha, h⟩
        simp only [maxUint64] at hv
        rw [inIntRange_iff, hval] at hr
        split at hr <;> omega
      · by_cases hneg : s.data.head? = some '-' <;> simp [hneg, maxUint64, rangeError]
    · rw [hres, hu] at *
      refine Or.inr ⟨?_, ?_⟩
      · rintro ⟨hl, _⟩
        exact hna (hlit.mp hl)
      · simp [syntaxError]

theorem length_le_utf8Len (cs : List Char) : cs.length ≤ String.utf8Len cs := by
  induction cs with
  | nil => simp
  | cons c cs ih =>
    have hp := Char.utf8Size_pos c
    simp only [List.length_cons, String.utf8Len_cons]
    omega

theorem length_le_utf8ByteSize (s : String) : s.data.length ≤ s.utf8ByteSize := by
  cases s with
  | mk cs => exact length_le_utf8Len cs

theorem unsignedPart_length_le (s : String) : (unsignedPart s).length ≤ s.data.length := by
  unfold unsignedPart
  split
  · simp
  · exact le_rfl

/-- The function `Atoi` against the decimal grammar: it returns the value of a literal
that fits the 64-bit `int`, and an error for every other text. -/
theorem Atoi_spec (s : String) :
    (isDecimalLiteral s = true ∧ inIntRange (literalValue s) = true ∧
        Atoi s = (literalValue s, none)) ∨
    (¬ (isDecimalLiteral s = true ∧ inIntRange (literalValue s) = true) ∧
        (Atoi s).2 ≠ none) := by
  have hlit := isDecimalLiteral_iff s
  have hval : literalValue s = if s.data.head? = some '-'
      then - (digitsValueFrom 0 (unsignedPart s) : Int)
      else (digitsValueFrom 0 (unsignedPart s) : Int) := rfl
  have hcond : (intSize = 32 ∧ (0 < s.utf8ByteSize ∧ s.utf8ByteSize < 10) ∨
      intSize = 64 ∧ (0 < s.utf8ByteSize ∧ s.utf8ByteSize < 19)) ↔
      (0 < s.utf8ByteSize ∧ s.utf8ByteSize < 19) := by
    simp [intSize]
  by_cases hfast : 0 < s.utf8ByteSize ∧ s.utf8ByteSize < 19
  · have hrest : (if s.data.head? = some '-' ∨ s.data.head? = some '+' then s.data.tail
        else s.data) = unsignedPart s := by
      unfold unsignedPart
      by_cases h1 : s.data.head? = some '+' <;> by_cases h2 : s.data.head? = some '-' <;>
        simp [h1, h2]
    have hA : Atoi s =
        if (s.data.head? = some '-' ∨ s.data.head? = some '+') ∧ (unsignedPart s).length < 1
        then (0, some (syntaxError "Atoi" s))
        else
          match atoiFastLoop (unsignedPart s) 0 with
          | none => (0, some (syntaxError "Atoi" s))
          | some n => (if s.data.head? = some '-' then wrapInt64 (-n) else n, none) := by
      simp only [Atoi, if_pos (hcond.mpr hfast), hrest]
    rw [hA]
    by_cases hempty : unsignedPart s = []
    · have hsigned : s.data.head? = some '-' ∨ s.data.head? = some '+' := by
        by_contra hns
        have hd : s.data = [] := by
          have := hrest
          rw [if_neg hns] at this
          rw [this, hempty]
        have h0 : s.utf8ByteSize = 0 := by
          rw [(data_eq_nil_iff s).mp hd]; rfl
        omega
      refine Or.inr ⟨?_, ?_⟩
      · rintro ⟨hl, _⟩
        exact (hlit.mp hl).1 hempty
      · simp [hsigned, hempty]
    · have hlen : ¬ ((s.data.head? = some '-' ∨ s.data.head? = some '+') ∧
          (unsignedPart s).length < 1) := by
        rintro ⟨_, h⟩
        exact hempty (List.length_eq_zero.mp (by omega))
      rw [if_neg hlen]
      by_cases hall : (unsignedPart s).all isDecimalDigit = true
      · have hl18 : (unsignedPart s).length ≤ 18 := by
          have h1 := unsignedPart_length_le s
          have h2 := length_le_utf8ByteSize s
          omega
        have hpow : (0 + 1) * 10 ^ (unsignedPart s).length ≤ 10 ^ 18 := by
          rw [zero_add, one_mul]
          exact Nat.pow_le_pow_right (by norm_num) hl18
        have hloop := atoiFastLoop_digits (unsignedPart s) 0 hpow hall
        have hbound := digitsValueFrom_lt (unsignedPart s) 0 hall
        have hb18 : digitsValueFrom 0 (unsignedPart s) + 1 ≤ 10 ^ 18 := le_trans hbound hpow
        norm_num at hb18
        rw [Nat.cast_zero] at hloop
        rw [hloop]
        refine Or.inl ⟨hlit.mpr ⟨hempty, hall⟩, ?_, ?_⟩
        · rw [inIntRange_iff, hval]
          split <;> omega
        · rw [hval]
          by_cases hneg : s.data.head? = some '-'
          · simp only [hneg, if_true]
            rw [wrapInt64_of_range _ (by omega) (by omega)]
          · simp only [hneg, if_false]
      · have hall2 : (unsignedPart s).all isDecimalDigit = false := by
          simpa using hall
        rw [atoiFastLoop_nondigit _ 0 hall2]
        refine Or.inr ⟨?_, ?_⟩
        · rintro ⟨hl, _⟩
          exact hall (hlit.mp hl).2
        · simp
  · have hA : Atoi s =
        match ParseInt s with
        | (i64, some nerr) => (i64, some ⟨"Atoi", nerr.Num, nerr.Err⟩)
        | (i64, none) => (i64, none) := by
      simp only [Atoi, if_neg (mt hcond.mp hfast)]
    rw [hA]
    rcases ParseInt_spec s with ⟨hl, hr, hres⟩ | ⟨hn, hres⟩
    · rw [hres]
      exact Or.inl ⟨hl, hr, rfl⟩
    · refine Or.inr ⟨hn, ?_⟩
      rcases hq : ParseInt s with ⟨z, _ | e⟩
      · rw [hq] at hres
        exact absurd rfl hres
      · simp

/-! ## The decimal rendering read back by `Atoi` -/

theorem digitChar_toNat (d : Nat) (h : d < 10) : (Nat.digitChar d).toNat = 48 + d := by
  interval_cases d <;> rfl

theorem digitChar_isDecimalDigit (d : Nat) (h : d < 10) :
    isDecimalDigit (Nat.digitChar d) = true := by
  have ht := digitChar_toNat d h
  simp only [isDecimalDigit, decide_eq_true_eq]
  omega

theorem digitsValueFrom_append (n : Nat) (xs : List Char) (c : Char) :
    digitsValueFrom n (xs ++ [c]) = digitsValueFrom n xs * 10 + (c.toNat - 48) := by
  simp [digitsValueFrom, List.foldl_append]

theorem renderDigits_ne_nil (fuel u : Nat) : renderDigits fuel u ≠ [] := by
  cases fuel with
  | zero => simp [renderDigits]
  | succ f =>
    unfold renderDigits
    split <;> simp

theorem renderDigits_all (fuel : Nat) :
    ∀ u, u ≤ fuel → (renderDigits fuel u).all isDecimalDigit = true := by
  induction fuel with
  | zero =>
    intro u hu
    have h0 : u = 0 := by omega
    subst h0
    rfl
  | succ f ih =>
    intro u hu
    unfold renderDigits
    split
    · rename_i hlt
      simp only [List.all_cons, List.all_nil, Bool.and_true]
      exact digitChar_isDecimalDigit u hlt
    · rw [List.all_append, ih (u / 10) (by omega)]
      simp only [List.all_cons, List.all_nil, Bool.and_true, Bool.true_and]
      exact digitChar_isDecimalDigit (u % 10) (Nat.mod_lt _ (by norm_num))

theorem renderDigits_value (fuel : Nat) :
    ∀ u, u ≤ fuel → digitsValueFrom 0 (renderDigits fuel u) = u := by
  induction fuel with
  | zero =>
    intro u hu
    have h0 : u = 0 := by omega
    subst h0
    rfl
  | succ f ih =>
    intro u hu
    unfold renderDigits
    split
    · rename_i hlt
      have ht := digitChar_toNat u hlt
      simp only [digitsValueFrom, List.foldl_cons, List.foldl_nil]
      omega
    · have ht := digitChar_toNat (u % 10) (Nat.mod_lt _ (by norm_num))
      rw [digitsValueFrom_append, ih (u / 10) (by omega)]
      omega

theorem digits_head_not_sign (cs : List Char) (h : cs.all isDecimalDigit = true) :
    ¬ (cs.head? = some '+' ∨ cs.head? = some '-') := by
  cases cs with
  | nil => simp
  | cons c rest =>
    have hc := ((all_digits_cons c rest).mp h).1
    simp only [List.head?_cons, Option.some.injEq]
    rintro (rfl | rfl)
    · exact absurd hc (by decide)
    · exact absurd hc (by decide)

/-- The function `Atoi` reads the decimal rendering of an `int` back as that `int`. -/
theorem Atoi_decimalRendering (n : Int) (h1 : -9223372036854775808 ≤ n)
    (h2 : n ≤ 9223372036854775807) : Atoi (decimalRendering n) = (n, none) := by
  have hall := renderDigits_all n.natAbs n.natAbs le_rfl
  have hval := renderDigits_value n.natAbs n.natAbs le_rfl
  have hne := renderDigits_ne_nil n.natAbs n.natAbs
  have hlit : isDecimalLiteral (decimalRendering n) = true ∧
      literalValue (decimalRendering n) = n := by
    by_cases hneg : n < 0
    · have hd : (decimalRendering n).data = '-' :: renderDigits n.natAbs n.natAbs := by
        simp only [decimalRendering, hneg, if_true]
      have hu : unsignedPart (decimalRendering n) = renderDigits n.natAbs n.natAbs := by
        simp [unsignedPart, hd]
      refine ⟨(isDecimalLiteral_iff _).mpr ⟨by rw [hu]; exact hne, by rw [hu]; exact hall⟩, ?_⟩
      simp only [literalValue, hd, List.head?_cons, if_true, hu, hval]
      omega
    · have hd : (decimalRendering n).data = renderDigits n.natAbs n.natAbs := by
        simp only [decimalRendering, hneg, if_false]
      have hns := digits_head_not_sign _ hall
      have hu : unsignedPart (decimalRendering n) = renderDigits n.natAbs n.natAbs := by
        simp only [unsignedPart, hd, if_neg hns]
      refine ⟨(isDecimalLiteral_iff _).mpr ⟨by rw [hu]; exact hne, by rw [hu]; exact hall⟩, ?_⟩
      have hnm : ¬ (renderDigits n.natAbs n.natAbs).head? = some '-' :=
        fun e => hns (Or.inr e)
      simp only [literalValue, hd, if_neg hnm, hu, hval]
      omega
  rcases Atoi_spec (decimalRendering n) with ⟨_, _, hres⟩ | ⟨hno, _⟩
  · rw [hres, hlit.2]
  · exact absurd ⟨hlit.1, by rw [hlit.2, inIntRange_iff]; exact ⟨h1, h2⟩⟩ hno

end strconv

namespace parser

open errors

/-! ## Properties of the getters -/

/-- C1: whenever the annotations bind the canonical key of `name` to the raw value
`"true"`, whatever else they hold, `GetBoolAnnotation name` returns `true` and no error. -/
theorem C1_bool_true_on_canonical (name : String) (ing : Ingress)
    (h : ing.GetAnnotations.get (GetAnnotationWithPrefix name) = some "true") :
    GetBoolAnnotation name (some ing) = (true, none) :=
  GetBoolAnnotation_canonical_ok name ing "true" true h (by decide)

theorem C1_bool_true_on_canonical_witness :
    GetBoolAnnotation "secure-backends"
      (some (buildIngress.SetAnnotations
        [(GetAnnotationWithPrefix "secure-backends", "true"),
         (GetAnnotationWithPrefix "secure-verify-ca-secret", "secure-verify-ca")]))
      = (true, none) :=
  C1_bool_true_on_canonical "secure-backends" _ (by decide)

/-- C2: for each of the three getters, when the canonical key is bound to a value that
parses into the requested type, the getter returns the parsed value with no error, and it
returns the same after the deprecated key is bound to any value or removed. -/
theorem C2_canonical_success_ignores_deprecated (name : String) (ing : Ingress)
    (d : Option String) :
    (∀ v b, ing.GetAnnotations.get (GetAnnotationWithPrefix name) = some v →
        strconv.ParseBool v = (b, none) →
        GetBoolAnnotation name (some ing) = (b, none) ∧
        GetBoolAnnotation name (some (ing.SetAnnotations
          (ing.GetAnnotations.overrideKey (GetAnnotationWithDeprecatedPrefix name) d)))
          = (b, none)) ∧
    (∀ v, ing.GetAnnotations.get (GetAnnotationWithPrefix name) = some v →
        GetStringAnnotation name (some ing) = (v, none) ∧
        GetStringAnnotation name (some (ing.SetAnnotations
          (ing.GetAnnotations.overrideKey (GetAnnotationWithDeprecatedPrefix name) d)))
          = (v, none)) ∧
    (∀ v n, ing.GetAnnotations.get (GetAnnotationWithPrefix name) = some v →
        strconv.Atoi v = (n, none) →
        GetIntAnnotation name (some ing) = (n, none) ∧
        GetIntAnnotation name (some (ing.SetAnnotations
          (ing.GetAnnotations.overrideKey (GetAnnotationWithDeprecatedPrefix name) d)))
          = (n, none)) := by
  have hne := prefix_ne_deprecated name name
  refine ⟨fun v b h hp => ⟨?_, ?_⟩, fun v h => ⟨?_, ?_⟩, fun v n h hp => ⟨?_, ?_⟩⟩
  · exact GetBoolAnnotation_canonical_ok name ing v b h hp
  · exact GetBoolAnnotation_canonical_ok name _ v b
      ((get_overrideKey_ne ing.GetAnnotations _ _ d hne).trans h) hp
  · exact GetStringAnnotation_canonical_ok name ing v h
  · exact GetStringAnnotation_canonical_ok name _ v
      ((get_overrideKey_ne ing.GetAnnotations _ _ d hne).trans h)
  · exact GetIntAnnotation_canonical_ok name ing v n h hp
  · exact GetIntAnnotation_canonical_ok name _ v n
      ((get_overrideKey_ne ing.GetAnnotations _ _ d hne).trans h) hp

theorem C2_canonical_success_ignores_deprecated_witness :
    ( GetBoolAnnotation "secure-backends"
        (some (buildIngress.SetAnnotations
          [(GetAnnotationWithPrefix "secure-backends", "1")])) = (true, none) ∧
      GetBoolAnnotation "secure-backends"
        (some (buildIngress.SetAnnotations
          [(GetAnnotationWithDeprecatedPrefix "secure-backends", "notabool"),
           (GetAnnotationWithPrefix "secure-backends", "1")])) = (true, none)) ∧
    ( GetStringAnnotation "secure-backends"
        (some (buildIngress.SetAnnotations
          [(GetAnnotationWithPrefix "secure-backends", "1")])) = ("1", none) ∧
      GetStringAnnotation "secure-backends"
        (some (buildIngress.SetAnnotations
          [(GetAnnotationWithDeprecatedPrefix "secure-backends", "notabool"),
           (GetAnnotationWithPrefix "secure-backends", "1")])) = ("1", none)) ∧
    ( GetIntAnnotation "secure-backends"
        (some (buildIngress.SetAnnotations
          [(GetAnnotationWithPrefix "secure-backends", "1")])) = (1, none) ∧
      GetIntAnnotation "secure-backends"
        (some (buildIngress.SetAnnotations
          [(GetAnnotationWithDeprecatedPrefix "secure-backends", "notabool"),
           (GetAnnotationWithPrefix "secure-backends", "1")])) = (1, none)) :=
  have t := C2_canonical_success_ignores_deprecated "secure-backends"
    (buildIngress.SetAnnotations [(GetAnnotationWithPrefix "secure-backends", "1")])
    (some "notabool")
  ⟨t.1 "1" true (by decide) (by decide), t.2.1 "1" (by decide),
    t.2.2 "1" 1 (by decide) (by decide)⟩

/-- C3: for each of the three getters, when the canonical attempt fails (the canonical
key is absent, or bound to a value that does not parse) and the deprecated key is bound
to a value that parses, the getter returns the value parsed from the deprecated key with
no error. -/
theorem C3_fallback_to_deprecated (name : String) (ing : Ingress) :
    (∀ w b,
        (ing.GetAnnotations.get (GetAnnotationWithPrefix name) = none ∨
          ∃ v, ing.GetAnnotations.get (GetAnnotationWithPrefix name) = some v ∧
            (strconv.ParseBool v).2 ≠ none) →
        ing.GetAnnotations.get (GetAnnotationWithDeprecatedPrefix name) = some w →
        strconv.ParseBool w = (b, none) →
        GetBoolAnnotation name (some ing) = (b, none)) ∧
    (∀ w,
        ing.GetAnnotations.get (GetAnnotationWithPrefix name) = none →
        ing.GetAnnotations.get (GetAnnotationWithDeprecatedPrefix name) = some w →
        GetStringAnnotation name (some ing) = (w, none)) ∧
    (∀ w n,
        (ing.GetAnnotations.get (GetAnnotationWithPrefix name) = none ∨
          ∃ v, ing.GetAnnotations.get (GetAnnotationWithPrefix name) = some v ∧
            (strconv.Atoi v).2 ≠ none) →
        ing.GetAnnotations.get (GetAnnotationWithDeprecatedPrefix name) = some w →
        strconv.Atoi w = (n, none) →
        GetIntAnnotation name (some ing) = (n, none)) := by
  refine ⟨fun w b hc hd hp => ?_, fun w hc hd => ?_, fun w n hc hd hp => ?_⟩
  · rw [GetBoolAnnotation_fallback name ing (get_some_length _ _ _ hd)]
    · exact parseBool_ok _ _ w b hd hp
    · rcases hc with hc | ⟨v, hv, hbad⟩
      · exact parseBool_absent_fails _ _ hc
      · exact parseBool_bad_fails _ _ v hv hbad
  · rw [GetStringAnnotation_fallback name ing (get_some_length _ _ _ hd)]
    · exact parseString_ok _ _ w hd
    · exact parseString_absent_fails _ _ hc
  · rw [GetIntAnnotation_fallback name ing (get_some_length _ _ _ hd)]
    · exact parseInt_ok _ _ w n hd hp
    · rcases hc with hc | ⟨v, hv, hbad⟩
      · exact parseInt_absent_fails _ _ hc
      · exact parseInt_bad_fails _ _ v hv hbad

theorem C3_fallback_to_deprecated_witness :
    GetBoolAnnotation "secure-backends"
        (some (buildIngress.SetAnnotations
          [(GetAnnotationWithDeprecatedPrefix "secure-backends", "true")])) = (true, none) ∧
    GetStringAnnotation "secure-verify-ca-secret"
        (some (buildIngress.SetAnnotations
          [(GetAnnotationWithDeprecatedPrefix "secure-verify-ca-secret", "secure-verify-ca")]))
        = ("secure-verify-ca", none) ∧
    GetIntAnnotation "replica-count"
        (some (buildIngress.SetAnnotations
          [(GetAnnotationWithPrefix "replica-count", "x"),
           (GetAnnotationWithDeprecatedPrefix "replica-count", "3")])) = (3, none) :=
  ⟨(C3_fallback_to_deprecated "secure-backends" _).1 "true" true
      (Or.inl (by decide)) (by decide) (by decide),
    (C3_fallback_to_deprecated "secure-verify-ca-secret" _).2.1 "secure-verify-ca"
      (by decide) (by decide),
    (C3_fallback_to_deprecated "replica-count" _).2.2 "3" 3
      (Or.inr ⟨"x", by decide, by decide⟩) (by decide) (by decide)⟩

/-- C4: for each of the three getters and every name, when the resource is nil, or its
annotations are empty, or they bind neither the canonical nor the deprecated key of the
name, the getter fails with `MissingAnnotations`. -/
theorem C4_missing_annotations (name : String) (r : Option Ingress)
    (h : r = none ∨ ∃ ing, r = some ing ∧
      (ing.GetAnnotations = [] ∨
        (ing.GetAnnotations.get (GetAnnotationWithPrefix name) = none ∧
          ing.GetAnnotations.get (GetAnnotationWithDeprecatedPrefix name) = none))) :
    GetBoolAnnotation name r = (false, some AnnotationError.ErrMissingAnnotations) ∧
    GetStringAnnotation name r = ("", some AnnotationError.ErrMissingAnnotations) ∧
    GetIntAnnotation name r = (0, some AnnotationError.ErrMissingAnnotations) := by
  rcases h with rfl | ⟨ing, rfl, h⟩
  · simp [ GetBoolAnnotation, GetStringAnnotation, GetIntAnnotation, checkAnnotation]
  · by_cases hlen : ing.Annotations.length = 0
    · have he : ing.Annotations = [] := List.length_eq_zero.mp hlen
      simp [ GetBoolAnnotation, GetStringAnnotation, GetIntAnnotation,
        checkAnnotation_empty _ ing he]
    · have hne : ing.GetAnnotations ≠ [] := fun e => hlen (by
        simp [Ingress.GetAnnotations] at e; simp [e])
      rcases h with h | ⟨hc, hd⟩
      · exact absurd h hne
      · refine ⟨?_, ?_, ?_⟩
        · rw [GetBoolAnnotation_fallback name ing hlen (parseBool_absent_fails _ _ hc)]
          exact parseBool_absent _ _ hd
        · rw [GetStringAnnotation_fallback name ing hlen (parseString_absent_fails _ _ hc)]
          exact parseString_absent _ _ hd
        · rw [GetIntAnnotation_fallback name ing hlen (parseInt_absent_fails _ _ hc)]
          exact parseInt_absent _ _ hd

theorem C4_missing_annotations_witness :
    GetBoolAnnotation "secure-backends" (some buildIngress)
      = (false, some AnnotationError.ErrMissingAnnotations) ∧
    GetStringAnnotation "secure-backends" (some buildIngress)
      = ("", some AnnotationError.ErrMissingAnnotations) ∧
    GetIntAnnotation "secure-backends" (some buildIngress)
      = (0, some AnnotationError.ErrMissingAnnotations) :=
  C4_missing_annotations "secure-backends" (some buildIngress)
    (Or.inr ⟨buildIngress, rfl, Or.inl (by decide)⟩)

/-- C5, as stated, fails: with the canonical key `secure-backends` bound to `"notabool"`
and no deprecated key, `GetBoolAnnotation` does not return `InvalidAnnotationContent` for
the canonical key; with `replica-count` bound to `"x"`, neither does `GetIntAnnotation`. -/
theorem C5_counterexample :
    (buildIngress.SetAnnotations
        [(GetAnnotationWithPrefix "secure-backends", "notabool")]).GetAnnotations.get
        (GetAnnotationWithPrefix "secure-backends") = some "notabool" ∧
    (strconv.ParseBool "notabool").2 ≠ none ∧
    (buildIngress.SetAnnotations
        [(GetAnnotationWithPrefix "secure-backends", "notabool")]).GetAnnotations.get
        (GetAnnotationWithDeprecatedPrefix "secure-backends") = none ∧
    GetBoolAnnotation "secure-backends"
        (some (buildIngress.SetAnnotations
          [(GetAnnotationWithPrefix "secure-backends", "notabool")]))
      ≠ (false, some (AnnotationError.InvalidAnnotationContent
          "ingress.open-cluster-management.io/secure-backends" "notabool")) ∧
    (strconv.Atoi "x").2 ≠ none ∧
    GetIntAnnotation "replica-count"
        (some (buildIngress.SetAnnotations
          [(GetAnnotationWithPrefix "replica-count", "x")]))
      ≠ (0, some (AnnotationError.InvalidAnnotationContent
          "ingress.open-cluster-management.io/replica-count" "x")) := by
  decide

/-- C5, amended: for `GetBoolAnnotation` and `GetIntAnnotation`, when the canonical key is
bound to a raw value that does not parse into the requested type and the deprecated key
is absent, the getter fails with `MissingAnnotations`, the result of the deprecated
attempt. -/
theorem C5_unparsable_canonical_reports_missing (name : String) (ing : Ingress)
    (hd : ing.GetAnnotations.get (GetAnnotationWithDeprecatedPrefix name) = none) :
    (∀ v, ing.GetAnnotations.get (GetAnnotationWithPrefix name) = some v →
        (strconv.ParseBool v).2 ≠ none →
        GetBoolAnnotation name (some ing)
          = (false, some AnnotationError.ErrMissingAnnotations)) ∧
    (∀ v, ing.GetAnnotations.get (GetAnnotationWithPrefix name) = some v →
        (strconv.Atoi v).2 ≠ none →
        GetIntAnnotation name (some ing)
          = (0, some AnnotationError.ErrMissingAnnotations)) := by
  refine ⟨fun v hv hbad => ?_, fun v hv hbad => ?_⟩
  · rw [GetBoolAnnotation_fallback name ing (get_some_length _ _ _ hv) (parseBool_bad_fails _ _ v hv hbad)]
    exact parseBool_absent _ _ hd
  · rw [GetIntAnnotation_fallback name ing (get_some_length _ _ _ hv) (parseInt_bad_fails _ _ v hv hbad)]
    exact parseInt_absent _ _ hd

theorem C5_unparsable_canonical_reports_missing_witness :
    GetBoolAnnotation "secure-backends"
        (some (buildIngress.SetAnnotations
          [(GetAnnotationWithPrefix "secure-backends", "notabool")]))
      = (false, some AnnotationError.ErrMissingAnnotations) ∧
    GetIntAnnotation "secure-backends"
        (some (buildIngress.SetAnnotations
          [(GetAnnotationWithPrefix "secure-backends", "notabool")]))
      = (0, some AnnotationError.ErrMissingAnnotations) :=
  have t := C5_unparsable_canonical_reports_missing "secure-backends"
    (buildIngress.SetAnnotations [(GetAnnotationWithPrefix "secure-backends", "notabool")])
    (by decide)
  ⟨t.1 "notabool" (by decide) (by decide), t.2 "notabool" (by decide) (by decide)⟩

/-- C6, on the code: `checkAnnotation` rejects the empty name on a non-empty mapping, yet
the getters hand it the prefixed key, so with the name `""` and the annotations
`ingress.open-cluster-management.io/ = "1"` all three getters succeed, and on any other
non-empty mapping they report `MissingAnnotations`. -/
theorem C6_empty_name_not_rejected :
    checkAnnotation "" (some (buildIngress.SetAnnotations [("a", "b")]))
      = some AnnotationError.ErrInvalidAnnotationName ∧
    GetBoolAnnotation "" (some (buildIngress.SetAnnotations
      [("ingress.open-cluster-management.io/", "1")])) = (true, none) ∧
    GetStringAnnotation "" (some (buildIngress.SetAnnotations
      [("ingress.open-cluster-management.io/", "1")])) = ("1", none) ∧
    GetIntAnnotation "" (some (buildIngress.SetAnnotations
      [("ingress.open-cluster-management.io/", "1")])) = (1, none) ∧
    GetBoolAnnotation "" (some (buildIngress.SetAnnotations [("a", "b")]))
      = (false, some AnnotationError.ErrMissingAnnotations) ∧
    GetStringAnnotation "" (some (buildIngress.SetAnnotations [("a", "b")]))
      = ("", some AnnotationError.ErrMissingAnnotations) ∧
    GetIntAnnotation "" (some (buildIngress.SetAnnotations [("a", "b")]))
      = (0, some AnnotationError.ErrMissingAnnotations) := by
  decide

/-- C7, as stated, fails: the raw value `"tRUE"` equals `true` ignoring letter case, yet
`parseBool` rejects it with `InvalidAnnotationContent`. -/
theorem C7_counterexample :
    ingAnnotations.get [("k", "tRUE")] "k" = some "tRUE" ∧
    spec.isBoolWordIgnoringCase "tRUE" = true ∧
    parseBool [("k", "tRUE")] "k"
      = (false, some (AnnotationError.InvalidAnnotationContent "k" "tRUE")) := by
  decide

/-- C7, amended: on a mapping binding `k` to `v`, `parseBool k` succeeds exactly when `v`
is one of the twelve spellings `1`, `t`, `T`, `true`, `TRUE`, `True` (yielding true) and
`0`, `f`, `F`, `false`, `FALSE`, `False` (yielding false); each of them equals, ignoring
letter case, one of the six words of the specification and has the value the
specification gives; every other `v` fails with `InvalidAnnotationContent(k, v)`. -/
theorem C7_parseBool_twelve_spellings (a : ingAnnotations) (k v : String)
    (h : a.get k = some v) :
    ((parseBool a k).2 = none ↔
      v ∈ ["1", "t", "T", "true", "TRUE", "True", "0", "f", "F", "false", "FALSE", "False"]) ∧
    (v ∈ ["1", "t", "T", "true", "TRUE", "True"] → parseBool a k = (true, none)) ∧
    (v ∈ ["0", "f", "F", "false", "FALSE", "False"] → parseBool a k = (false, none)) ∧
    (v ∉ ["1", "t", "T", "true", "TRUE", "True", "0", "f", "F", "false", "FALSE", "False"] →
      parseBool a k = (false, some (AnnotationError.InvalidAnnotationContent k v))) ∧
    ((parseBool a k).2 = none →
      spec.isBoolWordIgnoringCase v = true ∧ (parseBool a k).1 = spec.boolWordValue v) := by
  have ht : v ∈ ["1", "t", "T", "true", "TRUE", "True"] → parseBool a k = (true, none) := by
    intro hv
    apply parseBool_ok a k v true h
    simp only [List.mem_cons, List.mem_singleton, List.not_mem_nil, or_false] at hv
    simp [strconv.ParseBool, hv]
  have hf : v ∈ ["0", "f", "F", "false", "FALSE", "False"] → parseBool a k = (false, none) := by
    intro hv
    apply parseBool_ok a k v false h
    simp only [List.mem_cons, List.mem_singleton, List.not_mem_nil, or_false] at hv
    rcases hv with rfl | rfl | rfl | rfl | rfl | rfl <;> decide
  have hn : v ∉ ["1", "t", "T", "true", "TRUE", "True", "0", "f", "F", "false", "FALSE",
      "False"] → parseBool a k = (false, some (AnnotationError.InvalidAnnotationContent k v)) := by
    intro hv
    apply parseBool_bad a k v h
    simp only [List.mem_cons, List.mem_singleton, List.not_mem_nil, or_false, not_or] at hv
    simp [strconv.ParseBool, hv]
  have hsplit : v ∈ ["1", "t", "T", "true", "TRUE", "True", "0", "f", "F", "false", "FALSE",
      "False"] ↔ (v ∈ ["1", "t", "T", "true", "TRUE", "True"] ∨
        v ∈ ["0", "f", "F", "false", "FALSE", "False"]) := by
    exact List.mem_append (s := ["1", "t", "T", "true", "TRUE", "True"])
      (t := ["0", "f", "F", "false", "FALSE", "False"])
  refine ⟨?_, ht, hf, hn, ?_⟩
  · constructor
    · intro hs
      by_contra hv
      rw [hn hv] at hs
      simp at hs
    · intro hv
      rcases hsplit.mp hv with hv | hv
      · rw [ht hv]
      · rw [hf hv]
  · intro hs
    by_cases hv : v ∈ ["1", "t", "T", "true", "TRUE", "True", "0", "f", "F", "false", "FALSE",
      "False"]
    · rcases hsplit.mp hv with hv | hv
      · rw [ht hv]
        simp only [List.mem_cons, List.mem_singleton, List.not_mem_nil, or_false] at hv
        rcases hv with rfl | rfl | rfl | rfl | rfl | rfl <;> decide
      · rw [hf hv]
        simp only [List.mem_cons, List.mem_singleton, List.not_mem_nil, or_false] at hv
        rcases hv with rfl | rfl | rfl | rfl | rfl | rfl <;> decide
    · rw [hn hv] at hs
      simp at hs

theorem C7_parseBool_twelve_spellings_witness :
    ((parseBool [("k", "True")] "k").2 = none ↔
      "True" ∈ ["1", "t", "T", "true", "TRUE", "True", "0", "f", "F", "false", "FALSE",
        "False"]) ∧
    ("True" ∈ ["1", "t", "T", "true", "TRUE", "True"] →
      parseBool [("k", "True")] "k" = (true, none)) ∧
    ("True" ∈ ["0", "f", "F", "false", "FALSE", "False"] →
      parseBool [("k", "True")] "k" = (false, none)) ∧
    ("True" ∉ ["1", "t", "T", "true", "TRUE", "True", "0", "f", "F", "false", "FALSE",
        "False"] →
      parseBool [("k", "True")] "k"
        = (false, some (AnnotationError.InvalidAnnotationContent "k" "True"))) ∧
    ((parseBool [("k", "True")] "k").2 = none →
      spec.isBoolWordIgnoringCase "True" = true ∧
        (parseBool [("k", "True")] "k").1 = spec.boolWordValue "True") :=
  C7_parseBool_twelve_spellings [("k", "True")] "k" "True" (by decide)

/-- C8, as stated, fails: `"9223372036854775808"` is a decimal literal (digits only), yet
`parseInt` rejects it with `InvalidAnnotationContent`, its value being one above the
largest `int`. -/
theorem C8_counterexample :
    ingAnnotations.get [("k", "9223372036854775808")] "k" = some "9223372036854775808" ∧
    spec.isDecimalLiteral "9223372036854775808" = true ∧
    parseInt [("k", "9223372036854775808")] "k"
      = (0, some (AnnotationError.InvalidAnnotationContent "k" "9223372036854775808")) := by
  decide

/-- C8, amended: on a mapping binding `k` to `v`, `parseInt k` succeeds exactly when `v` is
a base-10 signed integer literal (an optional `'+'` or `'-'` followed by one or more
decimal digits) whose value lies in the range of the 64-bit `int`, returning the integer
the literal denotes; for every other `v` it fails with `InvalidAnnotationContent(k, v)`. -/
theorem C8_parseInt_literal_in_range (a : ingAnnotations) (k v : String)
    (h : a.get k = some v) :
    ((parseInt a k).2 = none ↔
      (spec.isDecimalLiteral v = true ∧ spec.inIntRange (spec.literalValue v) = true)) ∧
    (spec.isDecimalLiteral v = true ∧ spec.inIntRange (spec.literalValue v) = true →
      parseInt a k = (spec.literalValue v, none)) ∧
    (¬ (spec.isDecimalLiteral v = true ∧ spec.inIntRange (spec.literalValue v) = true) →
      parseInt a k = (0, some (AnnotationError.InvalidAnnotationContent k v))) := by
  rcases strconv.Atoi_spec v with ⟨hl, hr, hres⟩ | ⟨hn, hres⟩
  · have hok := parseInt_ok a k v _ h hres
    refine ⟨⟨fun _ => ⟨hl, hr⟩, fun _ => by rw [hok]⟩, fun _ => hok, fun hno => ?_⟩
    exact absurd ⟨hl, hr⟩ hno
  · have hbad := parseInt_bad a k v h hres
    refine ⟨⟨fun hs => ?_, fun hy => absurd hy hn⟩, fun hy => absurd hy hn, fun _ => hbad⟩
    rw [hbad] at hs
    simp at hs

theorem C8_parseInt_literal_in_range_witness :
    ((parseInt [("replica-count", "-3")] "replica-count").2 = none ↔
      (spec.isDecimalLiteral "-3" = true ∧ spec.inIntRange (spec.literalValue "-3") = true)) ∧
    (spec.isDecimalLiteral "-3" = true ∧ spec.inIntRange (spec.literalValue "-3") = true →
      parseInt [("replica-count", "-3")] "replica-count" = (spec.literalValue "-3", none)) ∧
    (¬ (spec.isDecimalLiteral "-3" = true ∧ spec.inIntRange (spec.literalValue "-3") = true) →
      parseInt [("replica-count", "-3")] "replica-count"
        = (0, some (AnnotationError.InvalidAnnotationContent "replica-count" "-3"))) :=
  C8_parseInt_literal_in_range [("replica-count", "-3")] "replica-count" "-3" (by decide)

/-- C9: `GetStringAnnotation` has no parse failure: on a non-empty mapping it returns the
raw value under the canonical key unchanged when that key is present, otherwise the raw
value under the deprecated key unchanged when that key is present, otherwise `""` with
`MissingAnnotations`; and it returns `InvalidAnnotationContent` for no input at all. -/
theorem C9_string_never_invalid (name : String) (ing : Ingress)
    (h : ing.GetAnnotations ≠ []) :
    GetStringAnnotation name (some ing) =
      (match ing.GetAnnotations.get (GetAnnotationWithPrefix name) with
        | some v => (v, none)
        | none =>
          match ing.GetAnnotations.get (GetAnnotationWithDeprecatedPrefix name) with
          | some w => (w, none)
          | none => ("", some AnnotationError.ErrMissingAnnotations)) ∧
    ∀ (r : Option Ingress) (k v : String),
      ( GetStringAnnotation name r).2 ≠ some (AnnotationError.InvalidAnnotationContent k v) := by
  have key : ∀ i : Ingress, i.Annotations.length ≠ 0 →
      GetStringAnnotation name (some i) =
        (match i.GetAnnotations.get (GetAnnotationWithPrefix name) with
          | some v => (v, none)
          | none =>
            match i.GetAnnotations.get (GetAnnotationWithDeprecatedPrefix name) with
            | some w => (w, none)
            | none => ("", some AnnotationError.ErrMissingAnnotations)) := by
    intro i hlen
    rcases hc : i.GetAnnotations.get (GetAnnotationWithPrefix name) with _ | v
    · rw [GetStringAnnotation_fallback name i hlen (parseString_absent_fails _ _ hc)]
      rcases hd : i.GetAnnotations.get (GetAnnotationWithDeprecatedPrefix name) with _ | w
      · exact parseString_absent _ _ hd
      · exact parseString_ok _ _ w hd
    · exact GetStringAnnotation_canonical_ok name i v hc
  refine ⟨key ing (fun e => h (List.length_eq_zero.mp e)), ?_⟩
  intro r k v
  cases r with
  | none => simp [ GetStringAnnotation, checkAnnotation]
  | some i =>
    by_cases hlen : i.Annotations.length = 0
    · simp [ GetStringAnnotation, checkAnnotation_empty _ i (List.length_eq_zero.mp hlen)]
    · rw [key i hlen]
      rcases i.GetAnnotations.get (GetAnnotationWithPrefix name) with _ | v1
      · rcases i.GetAnnotations.get (GetAnnotationWithDeprecatedPrefix name) with _ | w1
        · simp
        · simp
      · simp

theorem C9_string_never_invalid_witness :
    GetStringAnnotation "secure-verify-ca-secret"
        (some (buildIngress.SetAnnotations
          [(GetAnnotationWithPrefix "secure-verify-ca-secret", "")])) = ("", none) ∧
    ∀ (r : Option Ingress) (k v : String),
      ( GetStringAnnotation "secure-verify-ca-secret" r).2
        ≠ some (AnnotationError.InvalidAnnotationContent k v) :=
  C9_string_never_invalid "secure-verify-ca-secret"
    (buildIngress.SetAnnotations [(GetAnnotationWithPrefix "secure-verify-ca-secret", "")])
    (by decide)

/-- C10: for every suffix, the empty one included, `GetAnnotationWithPrefix` is the
literal `ingress.open-cluster-management.io/` followed by the suffix and
`GetAnnotationWithDeprecatedPrefix` is the literal `icp.management.ibm.com/` followed by
the suffix; both are total functions. -/
theorem C10_key_construction (s : String) :
    GetAnnotationWithPrefix s = "ingress.open-cluster-management.io/" ++ s ∧
    GetAnnotationWithDeprecatedPrefix s = "icp.management.ibm.com/" ++ s := by
  constructor
  · apply String.ext
    rw [prefix_data, String.data_append]
  · apply String.ext
    rw [deprecated_data, String.data_append]

/-- C11: for `GetBoolAnnotation` and `GetIntAnnotation`, for every name and resource,
whenever the getter returns `InvalidAnnotationContent(k, v)`, the key `k` is present in
the annotations of the resource, `v` is exactly the raw value stored under `k`, and `v`
does not parse into the requested type. -/
theorem C11_invalid_content_is_accurate (name : String) (r : Option Ingress) (k v : String) :
    (( GetBoolAnnotation name r).2 = some (AnnotationError.InvalidAnnotationContent k v) →
      ∃ ing, r = some ing ∧ ing.GetAnnotations.get k = some v ∧
        (strconv.ParseBool v).2 ≠ none) ∧
    (( GetIntAnnotation name r).2 = some (AnnotationError.InvalidAnnotationContent k v) →
      ∃ ing, r = some ing ∧ ing.GetAnnotations.get k = some v ∧
        (strconv.Atoi v).2 ≠ none) := by
  constructor
  · intro h
    obtain ⟨ing, hr, hk, hg, hbad⟩ := GetBoolAnnotation_invalid name r k v h
    exact ⟨ing, hr, by rw [hk]; exact hg, hbad⟩
  · intro h
    obtain ⟨ing, hr, hk, hg, hbad⟩ := GetIntAnnotation_invalid name r k v h
    exact ⟨ing, hr, by rw [hk]; exact hg, hbad⟩

theorem C11_invalid_content_is_accurate_witness :
    (∃ ing, some (buildIngress.SetAnnotations
          [(GetAnnotationWithDeprecatedPrefix "secure-backends", "notabool")]) = some ing ∧
        ing.GetAnnotations.get "icp.management.ibm.com/secure-backends" = some "notabool" ∧
        (strconv.ParseBool "notabool").2 ≠ none) ∧
    (∃ ing, some (buildIngress.SetAnnotations
          [(GetAnnotationWithDeprecatedPrefix "secure-backends", "notabool")]) = some ing ∧
        ing.GetAnnotations.get "icp.management.ibm.com/secure-backends" = some "notabool" ∧
        (strconv.Atoi "notabool").2 ≠ none) :=
  have t := C11_invalid_content_is_accurate "secure-backends"
    (some (buildIngress.SetAnnotations
      [(GetAnnotationWithDeprecatedPrefix "secure-backends", "notabool")]))
    "icp.management.ibm.com/secure-backends" "notabool"
  ⟨t.1 (by decide), t.2 (by decide)⟩

/-- C12: the result of each of the three getters depends on the resource only through its
annotations: two resources whose annotations bind every key alike (equal mappings, in
whatever order they are stored, the other fields differing arbitrarily) give the same
value and the same error. -/
theorem C12_depends_only_on_annotations (name : String) (i1 i2 : Ingress)
    (h : ∀ k, i1.GetAnnotations.get k = i2.GetAnnotations.get k) :
    GetBoolAnnotation name (some i1) = GetBoolAnnotation name (some i2) ∧
    GetStringAnnotation name (some i1) = GetStringAnnotation name (some i2) ∧
    GetIntAnnotation name (some i1) = GetIntAnnotation name (some i2) := by
  have h12 : ∀ k, i1.Annotations.get k = i2.Annotations.get k := h
  by_cases he : i1.Annotations = []
  · have he2 : i2.Annotations = [] := get_ext_nil _ _ h12 he
    simp [ GetBoolAnnotation, GetStringAnnotation, GetIntAnnotation,
      checkAnnotation_empty _ i1 he, checkAnnotation_empty _ i2 he2]
  · have he2 : i2.Annotations ≠ [] :=
      fun e => he (get_ext_nil _ _ (fun k => (h12 k).symm) e)
    have hl1 : i1.Annotations.length ≠ 0 := fun e => he (List.length_eq_zero.mp e)
    have hl2 : i2.Annotations.length ≠ 0 := fun e => he2 (List.length_eq_zero.mp e)
    refine ⟨?_, ?_, ?_⟩
    · rw [GetBoolAnnotation_some name i1 hl1, GetBoolAnnotation_some name i2 hl2,
        parseBool_ext _ _ _ (h12 (GetAnnotationWithPrefix name)),
        parseBool_ext _ _ _ (h12 (GetAnnotationWithDeprecatedPrefix name))]
    · rw [GetStringAnnotation_some name i1 hl1, GetStringAnnotation_some name i2 hl2,
        parseString_ext _ _ _ (h12 (GetAnnotationWithPrefix name)),
        parseString_ext _ _ _ (h12 (GetAnnotationWithDeprecatedPrefix name))]
    · rw [GetIntAnnotation_some name i1 hl1, GetIntAnnotation_some name i2 hl2,
        parseInt_ext _ _ _ (h12 (GetAnnotationWithPrefix name)),
        parseInt_ext _ _ _ (h12 (GetAnnotationWithDeprecatedPrefix name))]

theorem C12_depends_only_on_annotations_witness :
    GetBoolAnnotation "secure-backends"
        (some (buildIngress.SetAnnotations
          [(GetAnnotationWithPrefix "secure-backends", "1")]))
      = GetBoolAnnotation "secure-backends"
        (some ⟨"bar", "kube-system", [(GetAnnotationWithPrefix "secure-backends", "1")],
          ⟨none, []⟩⟩) ∧
    GetStringAnnotation "secure-backends"
        (some (buildIngress.SetAnnotations
          [(GetAnnotationWithPrefix "secure-backends", "1")]))
      = GetStringAnnotation "secure-backends"
        (some ⟨"bar", "kube-system", [(GetAnnotationWithPrefix "secure-backends", "1")],
          ⟨none, []⟩⟩) ∧
    GetIntAnnotation "secure-backends"
        (some (buildIngress.SetAnnotations
          [(GetAnnotationWithPrefix "secure-backends", "1")]))
      = GetIntAnnotation "secure-backends"
        (some ⟨"bar", "kube-system", [(GetAnnotationWithPrefix "secure-backends", "1")],
          ⟨none, []⟩⟩) :=
  C12_depends_only_on_annotations "secure-backends"
    (buildIngress.SetAnnotations [(GetAnnotationWithPrefix "secure-backends", "1")])
    ⟨"bar", "kube-system", [(GetAnnotationWithPrefix "secure-backends", "1")], ⟨none, []⟩⟩
    (fun _ => rfl)

/-- C13: for `GetBoolAnnotation` and `GetIntAnnotation`, when the canonical key is bound to
a value that does not parse and the deprecated key does not exist, the caller receives
the result of the deprecated attempt verbatim, whose error is `MissingAnnotations`, and
not an `InvalidAnnotationContent`. -/
theorem C13_missing_masks_invalid (name : String) (ing : Ingress)
    (hd : ing.GetAnnotations.get (GetAnnotationWithDeprecatedPrefix name) = none) :
    (∀ v, ing.GetAnnotations.get (GetAnnotationWithPrefix name) = some v →
        (strconv.ParseBool v).2 ≠ none →
        GetBoolAnnotation name (some ing)
          = parseBool ing.GetAnnotations (GetAnnotationWithDeprecatedPrefix name) ∧
        ( GetBoolAnnotation name (some ing)).2 = some AnnotationError.ErrMissingAnnotations ∧
        ∀ k w, ( GetBoolAnnotation name (some ing)).2
          ≠ some (AnnotationError.InvalidAnnotationContent k w)) ∧
    (∀ v, ing.GetAnnotations.get (GetAnnotationWithPrefix name) = some v →
        (strconv.Atoi v).2 ≠ none →
        GetIntAnnotation name (some ing)
          = parseInt ing.GetAnnotations (GetAnnotationWithDeprecatedPrefix name) ∧
        ( GetIntAnnotation name (some ing)).2 = some AnnotationError.ErrMissingAnnotations ∧
        ∀ k w, ( GetIntAnnotation name (some ing)).2
          ≠ some (AnnotationError.InvalidAnnotationContent k w)) := by
  refine ⟨fun v hv hbad => ?_, fun v hv hbad => ?_⟩
  · have hf := GetBoolAnnotation_fallback name ing (get_some_length _ _ _ hv)
      (parseBool_bad_fails _ _ v hv hbad)
    have hm := parseBool_absent _ _ hd
    refine ⟨hf, ?_, ?_⟩
    · rw [hf]; exact congrArg Prod.snd hm
    · intro k w hk
      rw [hf] at hk
      have := (congrArg Prod.snd hm).symm.trans hk
      simp at this
  · have hf := GetIntAnnotation_fallback name ing (get_some_length _ _ _ hv)
      (parseInt_bad_fails _ _ v hv hbad)
    have hm := parseInt_absent _ _ hd
    refine ⟨hf, ?_, ?_⟩
    · rw [hf]; exact congrArg Prod.snd hm
    · intro k w hk
      rw [hf] at hk
      have := (congrArg Prod.snd hm).symm.trans hk
      simp at this

theorem C13_missing_masks_invalid_witness :
    ( GetBoolAnnotation "secure-backends"
        (some (buildIngress.SetAnnotations
          [(GetAnnotationWithPrefix "secure-backends", "notabool")]))).2
      = some AnnotationError.ErrMissingAnnotations ∧
    ( GetIntAnnotation "secure-backends"
        (some (buildIngress.SetAnnotations
          [(GetAnnotationWithPrefix "secure-backends", "notabool")]))).2
      = some AnnotationError.ErrMissingAnnotations :=
  have t := C13_missing_masks_invalid "secure-backends"
    (buildIngress.SetAnnotations [(GetAnnotationWithPrefix "secure-backends", "notabool")])
    (by decide)
  ⟨(t.1 "notabool" (by decide) (by decide)).2.1,
    (t.2 "notabool" (by decide) (by decide)).2.1⟩

/-- C14: each of the three getters equals, for every name and every resource (the nil
resource and the empty mapping included), the reference resolver of two sequential
attempts; in particular, when the validation of the canonical attempt fails, the early
return of the getter is the result of running the deprecated attempt once. -/
theorem C14_refines_two_attempts (name : String) (r : Option Ingress) :
    GetBoolAnnotation name r = spec.twoAttempts parseBool false name r ∧
    GetStringAnnotation name r = spec.twoAttempts parseString "" name r ∧
    GetIntAnnotation name r = spec.twoAttempts parseInt 0 name r ∧
    (∀ e, checkAnnotation (GetAnnotationWithPrefix name) r = some e →
      GetBoolAnnotation name r
        = spec.attempt parseBool false (GetAnnotationWithDeprecatedPrefix name) r ∧
      GetStringAnnotation name r
        = spec.attempt parseString "" (GetAnnotationWithDeprecatedPrefix name) r ∧
      GetIntAnnotation name r
        = spec.attempt parseInt 0 (GetAnnotationWithDeprecatedPrefix name) r) := by
  cases r with
  | none =>
    simp [ GetBoolAnnotation, GetStringAnnotation, GetIntAnnotation, spec.twoAttempts,
      spec.attempt, checkAnnotation_none]
  | some ing =>
    by_cases he : ing.Annotations = []
    · simp [ GetBoolAnnotation, GetStringAnnotation, GetIntAnnotation, spec.twoAttempts,
        spec.attempt, checkAnnotation_empty _ ing he]
    · have hlen : ing.Annotations.length ≠ 0 := fun e => he (List.length_eq_zero.mp e)
      have hc := checkAnnotation_canonical name ing hlen
      have hd := checkAnnotation_deprecated name ing hlen
      refine ⟨?_, ?_, ?_, ?_⟩
      · rw [GetBoolAnnotation_some name ing hlen]
        simp only [spec.twoAttempts, spec.attempt, hc, hd, annotationsOf,
          Ingress.GetAnnotations]
        rcases parseBool ing.Annotations (GetAnnotationWithPrefix name) with ⟨b, _ | e⟩ <;> rfl
      · rw [GetStringAnnotation_some name ing hlen]
        simp only [spec.twoAttempts, spec.attempt, hc, hd, annotationsOf,
          Ingress.GetAnnotations]
        rcases parseString ing.Annotations (GetAnnotationWithPrefix name) with ⟨b, _ | e⟩ <;>
          rfl
      · rw [GetIntAnnotation_some name ing hlen]
        simp only [spec.twoAttempts, spec.attempt, hc, hd, annotationsOf,
          Ingress.GetAnnotations]
        rcases parseInt ing.Annotations (GetAnnotationWithPrefix name) with ⟨b, _ | e⟩ <;> rfl
      · intro e hce
        rw [hc] at hce
        exact Option.noConfusion hce

theorem C14_refines_two_attempts_witness :
    GetBoolAnnotation "secure-backends" none
      = spec.attempt parseBool false (GetAnnotationWithDeprecatedPrefix "secure-backends")
          none ∧
    GetStringAnnotation "secure-backends" none
      = spec.attempt parseString "" (GetAnnotationWithDeprecatedPrefix "secure-backends")
          none ∧
    GetIntAnnotation "secure-backends" none
      = spec.attempt parseInt 0 (GetAnnotationWithDeprecatedPrefix "secure-backends") none :=
  (C14_refines_two_attempts "secure-backends" none).2.2.2
    AnnotationError.ErrMissingAnnotations (by decide)

/-- C15: round trip for integers: for every name and every integer `n` representable in
the 64-bit `int`, a resource whose annotations bind the canonical key of the name to the
canonical decimal rendering of `n` makes `GetIntAnnotation` return `n` and no error. -/
theorem C15_int_round_trip (name : String) (ing : Ingress) (n : Int)
    (h1 : -9223372036854775808 ≤ n) (h2 : n ≤ 9223372036854775807)
    (h : ing.GetAnnotations.get (GetAnnotationWithPrefix name)
      = some (spec.decimalRendering n)) :
    GetIntAnnotation name (some ing) = (n, none) :=
  GetIntAnnotation_canonical_ok name ing _ n h (strconv.Atoi_decimalRendering n h1 h2)

theorem C15_int_round_trip_witness :
    spec.decimalRendering 3 = "3" ∧
    GetIntAnnotation "replica-count"
      (some (buildIngress.SetAnnotations
        [(GetAnnotationWithPrefix "replica-count", spec.decimalRendering 3)])) = (3, none) :=
  ⟨by decide, C15_int_round_trip "replica-count" _ 3 (by decide) (by decide) (by decide)⟩

/-- C16: no input makes any of the three getters return `InvalidAnnotationName`: for every
name (the empty one included) and every resource (nil included) the error is absent,
`MissingAnnotations` or `InvalidAnnotationContent`, the key handed to `checkAnnotation`
being the prefixed one, which is never empty. -/
theorem C16_never_invalid_name (name : String) (r : Option Ingress) :
    (( GetBoolAnnotation name r).2 = none ∨
      ( GetBoolAnnotation name r).2 = some AnnotationError.ErrMissingAnnotations ∨
      ∃ k v, ( GetBoolAnnotation name r).2
        = some (AnnotationError.InvalidAnnotationContent k v)) ∧
    (( GetStringAnnotation name r).2 = none ∨
      ( GetStringAnnotation name r).2 = some AnnotationError.ErrMissingAnnotations ∨
      ∃ k v, ( GetStringAnnotation name r).2
        = some (AnnotationError.InvalidAnnotationContent k v)) ∧
    (( GetIntAnnotation name r).2 = none ∨
      ( GetIntAnnotation name r).2 = some AnnotationError.ErrMissingAnnotations ∨
      ∃ k v, ( GetIntAnnotation name r).2
        = some (AnnotationError.InvalidAnnotationContent k v)) ∧
    ( GetBoolAnnotation name r).2 ≠ some AnnotationError.ErrInvalidAnnotationName ∧
    ( GetStringAnnotation name r).2 ≠ some AnnotationError.ErrInvalidAnnotationName ∧
    ( GetIntAnnotation name r).2 ≠ some AnnotationError.ErrInvalidAnnotationName ∧
    GetAnnotationWithPrefix name ≠ "" ∧ GetAnnotationWithDeprecatedPrefix name ≠ "" := by
  have hb : ( GetBoolAnnotation name r).2 = none ∨
      ( GetBoolAnnotation name r).2 = some AnnotationError.ErrMissingAnnotations ∨
      ∃ k v, ( GetBoolAnnotation name r).2
        = some (AnnotationError.InvalidAnnotationContent k v) := by
    rcases GetBoolAnnotation_cases name r with
      ⟨_, hres⟩ | ⟨ing, _, _, ⟨b, _, hres⟩ | ⟨_, hres⟩⟩
    · rw [hres]; exact Or.inr (Or.inl rfl)
    · rw [hres]; exact Or.inl rfl
    · rw [hres]
      rcases parseBool_cases ing.Annotations (GetAnnotationWithDeprecatedPrefix name) with
        ⟨_, hp⟩ | ⟨w, _, _, hp⟩ | ⟨w, b, _, _, hp⟩
      · rw [hp]; exact Or.inr (Or.inl rfl)
      · rw [hp]; exact Or.inr (Or.inr ⟨_, w, rfl⟩)
      · rw [hp]; exact Or.inl rfl
  have hs : ( GetStringAnnotation name r).2 = none ∨
      ( GetStringAnnotation name r).2 = some AnnotationError.ErrMissingAnnotations ∨
      ∃ k v, ( GetStringAnnotation name r).2
        = some (AnnotationError.InvalidAnnotationContent k v) := by
    rcases GetStringAnnotation_cases name r with
      ⟨_, hres⟩ | ⟨ing, _, _, ⟨b, _, hres⟩ | ⟨_, hres⟩⟩
    · rw [hres]; exact Or.inr (Or.inl rfl)
    · rw [hres]; exact Or.inl rfl
    · rw [hres]
      rcases parseString_cases ing.Annotations (GetAnnotationWithDeprecatedPrefix name) with
        ⟨_, hp⟩ | ⟨w, _, hp⟩
      · rw [hp]; exact Or.inr (Or.inl rfl)
      · rw [hp]; exact Or.inl rfl
  have hi : ( GetIntAnnotation name r).2 = none ∨
      ( GetIntAnnotation name r).2 = some AnnotationError.ErrMissingAnnotations ∨
      ∃ k v, ( GetIntAnnotation name r).2
        = some (AnnotationError.InvalidAnnotationContent k v) := by
    rcases GetIntAnnotation_cases name r with
      ⟨_, hres⟩ | ⟨ing, _, _, ⟨b, _, hres⟩ | ⟨_, hres⟩⟩
    · rw [hres]; exact Or.inr (Or.inl rfl)
    · rw [hres]; exact Or.inl rfl
    · rw [hres]
      rcases parseInt_cases ing.Annotations (GetAnnotationWithDeprecatedPrefix name) with
        ⟨_, hp⟩ | ⟨w, _, _, hp⟩ | ⟨w, b, _, _, hp⟩
      · rw [hp]; exact Or.inr (Or.inl rfl)
      · rw [hp]; exact Or.inr (Or.inr ⟨_, w, rfl⟩)
      · rw [hp]; exact Or.inl rfl
  refine ⟨hb, hs, hi, ?_, ?_, ?_, prefix_ne_empty name, deprecated_ne_empty name⟩
  · rcases hb with h | h | ⟨k, v, h⟩ <;> rw [h] <;> simp
  · rcases hs with h | h | ⟨k, v, h⟩ <;> rw [h] <;> simp
  · rcases hi with h | h | ⟨k, v, h⟩ <;> rw [h] <;> simp

/-- C17: for `GetBoolAnnotation` and `GetIntAnnotation`, whenever the getter returns
`InvalidAnnotationContent(k, v)`, `k` is the deprecated key of the name and `v` is the raw
value stored under it; the canonical key of no name is ever the key reported. -/
theorem C17_invalid_content_names_deprecated_key (name : String) (r : Option Ingress)
    (k v : String) :
    (( GetBoolAnnotation name r).2 = some (AnnotationError.InvalidAnnotationContent k v) →
      k = GetAnnotationWithDeprecatedPrefix name ∧
      (∃ ing, r = some ing ∧
        ing.GetAnnotations.get (GetAnnotationWithDeprecatedPrefix name) = some v) ∧
      ∀ t, k ≠ GetAnnotationWithPrefix t) ∧
    (( GetIntAnnotation name r).2 = some (AnnotationError.InvalidAnnotationContent k v) →
      k = GetAnnotationWithDeprecatedPrefix name ∧
      (∃ ing, r = some ing ∧
        ing.GetAnnotations.get (GetAnnotationWithDeprecatedPrefix name) = some v) ∧
      ∀ t, k ≠ GetAnnotationWithPrefix t) := by
  constructor
  · intro h
    obtain ⟨ing, hr, hk, hg, _⟩ := GetBoolAnnotation_invalid name r k v h
    exact ⟨hk, ⟨ing, hr, hg⟩, fun t e => prefix_ne_deprecated t name (e.symm.trans hk)⟩
  · intro h
    obtain ⟨ing, hr, hk, hg, _⟩ := GetIntAnnotation_invalid name r k v h
    exact ⟨hk, ⟨ing, hr, hg⟩, fun t e => prefix_ne_deprecated t name (e.symm.trans hk)⟩

theorem C17_invalid_content_names_deprecated_key_witness :
    ("icp.management.ibm.com/replica-count" = GetAnnotationWithDeprecatedPrefix "replica-count" ∧
      (∃ ing, some (buildIngress.SetAnnotations
            [(GetAnnotationWithPrefix "replica-count", "y"),
             (GetAnnotationWithDeprecatedPrefix "replica-count", "x")]) = some ing ∧
          ing.GetAnnotations.get (GetAnnotationWithDeprecatedPrefix "replica-count")
            = some "x") ∧
      ∀ t, "icp.management.ibm.com/replica-count" ≠ GetAnnotationWithPrefix t) ∧
    ("icp.management.ibm.com/replica-count" = GetAnnotationWithDeprecatedPrefix "replica-count" ∧
      (∃ ing, some (buildIngress.SetAnnotations
            [(GetAnnotationWithPrefix "replica-count", "y"),
             (GetAnnotationWithDeprecatedPrefix "replica-count", "x")]) = some ing ∧
          ing.GetAnnotations.get (GetAnnotationWithDeprecatedPrefix "replica-count")
            = some "x") ∧
      ∀ t, "icp.management.ibm.com/replica-count" ≠ GetAnnotationWithPrefix t) :=
  have t := C17_invalid_content_names_deprecated_key "replica-count"
    (some (buildIngress.SetAnnotations
      [(GetAnnotationWithPrefix "replica-count", "y"),
       (GetAnnotationWithDeprecatedPrefix "replica-count", "x")]))
    "icp.management.ibm.com/replica-count" "x"
  ⟨t.1 (by decide), t.2 (by decide)⟩

/-- C18: whenever any of the three getters returns an error, the accompanying value is the
zero value of the type: `false` for `GetBoolAnnotation`, `""` for `GetStringAnnotation`,
`0` for `GetIntAnnotation`, for every name and every resource. -/
theorem C18_zero_value_on_error (name : String) (r : Option Ingress) :
    (( GetBoolAnnotation name r).2 ≠ none → ( GetBoolAnnotation name r).1 = false) ∧
    (( GetStringAnnotation name r).2 ≠ none → ( GetStringAnnotation name r).1 = "") ∧
    (( GetIntAnnotation name r).2 ≠ none → ( GetIntAnnotation name r).1 = 0) := by
  refine ⟨?_, ?_, ?_⟩
  · rcases GetBoolAnnotation_cases name r with
      ⟨_, hres⟩ | ⟨ing, _, _, ⟨b, _, hres⟩ | ⟨_, hres⟩⟩
    · rw [hres]; intro _; rfl
    · rw [hres]; intro h; exact absurd rfl h
    · rw [hres]
      rcases parseBool_cases ing.Annotations (GetAnnotationWithDeprecatedPrefix name) with
        ⟨_, hp⟩ | ⟨w, _, _, hp⟩ | ⟨w, b, _, _, hp⟩
      · rw [hp]; intro _; rfl
      · rw [hp]; intro _; rfl
      · rw [hp]; intro h; exact absurd rfl h
  · rcases GetStringAnnotation_cases name r with
      ⟨_, hres⟩ | ⟨ing, _, _, ⟨b, _, hres⟩ | ⟨_, hres⟩⟩
    · rw [hres]; intro _; rfl
    · rw [hres]; intro h; exact absurd rfl h
    · rw [hres]
      rcases parseString_cases ing.Annotations (GetAnnotationWithDeprecatedPrefix name) with
        ⟨_, hp⟩ | ⟨w, _, hp⟩
      · rw [hp]; intro _; rfl
      · rw [hp]; intro h; exact absurd rfl h
  · rcases GetIntAnnotation_cases name r with
      ⟨_, hres⟩ | ⟨ing, _, _, ⟨b, _, hres⟩ | ⟨_, hres⟩⟩
    · rw [hres]; intro _; rfl
    · rw [hres]; intro h; exact absurd rfl h
    · rw [hres]
      rcases parseInt_cases ing.Annotations (GetAnnotationWithDeprecatedPrefix name) with
        ⟨_, hp⟩ | ⟨w, _, _, hp⟩ | ⟨w, b, _, _, hp⟩
      · rw [hp]; intro _; rfl
      · rw [hp]; intro _; rfl
      · rw [hp]; intro h; exact absurd rfl h

theorem C18_zero_value_on_error_witness :
    ( GetBoolAnnotation "secure-backends"
        (some (buildIngress.SetAnnotations
          [(GetAnnotationWithDeprecatedPrefix "secure-backends", "x")]))).1 = false ∧
    ( GetStringAnnotation "secure-backends"
        (some (buildIngress.SetAnnotations [("other", "x")]))).1 = "" ∧
    ( GetIntAnnotation "secure-backends"
        (some (buildIngress.SetAnnotations
          [(GetAnnotationWithDeprecatedPrefix "secure-backends", "x")]))).1 = 0 :=
  ⟨(C18_zero_value_on_error "secure-backends" _).1 (by decide),
    (C18_zero_value_on_error "secure-backends" _).2.1 (by decide),
    (C18_zero_value_on_error "secure-backends" _).2.2 (by decide)⟩

/-- C19: the two key-construction functions never collide: each is injective in the
suffix, and the canonical key of a suffix differs from the deprecated key of every
suffix. -/
theorem C19_keys_never_collide :
    Function.Injective GetAnnotationWithPrefix ∧
    Function.Injective GetAnnotationWithDeprecatedPrefix ∧
    ∀ s t, GetAnnotationWithPrefix s ≠ GetAnnotationWithDeprecatedPrefix t := by
  refine ⟨fun s t h => ?_, fun s t h => ?_, prefix_ne_deprecated⟩
  · have h2 := congrArg String.data h
    rw [prefix_data, prefix_data] at h2
    exact String.ext (List.append_cancel_left h2)
  · have h2 := congrArg String.data h
    rw [deprecated_data, deprecated_data] at h2
    exact String.ext (List.append_cancel_left h2)

end parser
